import Mathlib

/-!
# Formal model of the Bee Calc notebook-calculator core

A shallow embedding of `beenotepad.py` (classes `BeeParser` and `BeeNotepad`),
together with the zero-snap step of `MainWindow.processNotepad` from
`beecalc.py`.  Python floats are idealized as exact rationals (an executable
rational type `Q` whose operations reduce in the kernel); `math.pi` and the
other constants are represented by the rational value of their shortest
`repr`, which is also the text the preprocessor substitutes for them.
The external unit-arithmetic library `unitclass` is not part of this
repository; it is modelled from the spec's interface description (see
`UnitTable` below).
-/

namespace BeeCalc

/-- Euclid's algorithm with structural fuel, so that it reduces in the kernel
(the fuel `m + 1` always suffices because the first argument strictly
decreases). -/
def gcdFuel : Nat → Nat → Nat → Nat
  | 0, _, b => b
  | _ + 1, 0, b => b
  | f + 1, a + 1, b => gcdFuel f (b % (a + 1)) (a + 1)

/-- Kernel-reducible gcd. -/
def gcdE (m n : Nat) : Nat := gcdFuel (m + 1) m n

/-- Executable rationals: numerator and positive denominator, kept in lowest
terms by the smart constructor `mkQ`.  Used to idealize Python's int/float
arithmetic exactly. -/
structure Q where
  n : Int
  d : Nat
  deriving DecidableEq, Repr

/-- Normalizing constructor (`d = 0` never occurs on reachable values;
division by zero is trapped before construction). -/
def mkQ (n : Int) (d : Nat) : Q :=
  if d = 0 then ⟨n, 0⟩
  else
    let g := gcdE n.natAbs d
    ⟨n / (g : Int), d / g⟩

/-- Constructor from a possibly negative denominator. -/
def mkQi (n den : Int) : Q :=
  if den < 0 then mkQ (-n) (-den).toNat else mkQ n den.toNat

def qOfInt (k : Int) : Q := ⟨k, 1⟩
def qZero : Q := ⟨0, 1⟩
def qOne : Q := ⟨1, 1⟩

def qAdd (a b : Q) : Q := mkQ (a.n * (b.d : Int) + b.n * (a.d : Int)) (a.d * b.d)
def qSub (a b : Q) : Q := mkQ (a.n * (b.d : Int) - b.n * (a.d : Int)) (a.d * b.d)
def qMul (a b : Q) : Q := mkQ (a.n * b.n) (a.d * b.d)
def qNeg (a : Q) : Q := ⟨-a.n, a.d⟩
/-- Division; callers check `b.n ≠ 0` first (Python raises ZeroDivisionError). -/
def qDiv (a b : Q) : Q := mkQi (a.n * (b.d : Int)) ((a.d : Int) * b.n)
def qAbs (a : Q) : Q := ⟨a.n.natAbs, a.d⟩
def qLt (a b : Q) : Bool := a.n * (b.d : Int) < b.n * (a.d : Int)
def qLe (a b : Q) : Bool := a.n * (b.d : Int) ≤ b.n * (a.d : Int)
/-- Python `math.floor` on the idealized rational. -/
def qFloorInt (a : Q) : Int := Int.fdiv a.n (a.d : Int)
def qIsInt (a : Q) : Bool := a.d == 1

/-- Integer power (negative exponents via reciprocal; callers rule out
`0 ** negative`). -/
def qPowInt (a : Q) (e : Int) : Q :=
  if e < 0 then qDiv qOne (mkQ (a.n ^ (-e).toNat) (a.d ^ (-e).toNat))
  else mkQ (a.n ^ e.toNat) (a.d ^ e.toNat)

/-- Python `//` (floor division) on the idealized rationals. -/
def qFloorDiv (a b : Q) : Q := qOfInt (Int.fdiv (a.n * (b.d : Int)) (b.n * (a.d : Int)))

/-- Python `%` (sign follows the divisor): `a - b * (a // b)`. -/
def qMod (a b : Q) : Q := qSub a (qMul b (qFloorDiv a b))

/-- Interpretation of `Q` in the real numbers, for the analytic part of the
`sin` claims. -/
noncomputable def qToR (a : Q) : ℝ := (a.n : ℝ) / (a.d : ℝ)

/-! ## Character classes (mirroring the regex character classes used in
`BeeParser`'s patterns) -/

/-- Python `\s` (the whitespace characters relevant to `str.strip` and the
regexes). -/
def isWsC (c : Char) : Bool :=
  c = ' ' || c = '\t' || c = '\n' || c = '\x0d' || c = '\x0b' || c = '\x0c'

/-- Python regex `\w` restricted to the alphabet this program can produce
(ASCII word characters plus the Unicode letters appearing in the constant
and unit tables; `°` is not a word character in Python). -/
def isWordC (c : Char) : Bool :=
  c.isAlphanum || c = '_' || c = 'Ω' || c = 'μ' || c = 'π' || c = 'φ' || c = 'τ'

/-- The unit-name character class `[a-zA-Z_Ωμ°]` of `unit_re`. -/
def isUnitLetterC (c : Char) : Bool :=
  c.isAlpha || c = '_' || c = 'Ω' || c = 'μ' || c = '°'

/-- Characters counted by the termination measures of the unit-literal
rewrite loop. -/
def unitLetterCount (t : List Char) : Nat := t.countP (isUnitLetterC ·)

/-! ## Errors

The taxonomy of exceptions the evaluation pipeline can raise (SyntaxError,
ZeroDivisionError, the two `ValueError`s of `BeeParser.evaluate`, the
`unitclass` errors, and the defensive `TypeError`/`AttributeError`/
`IndexError` paths). -/

inductive Err where
  | syntaxError
  | zeroDivision
  | badOperator
  | badFunction (f : String)
  | badNameOrConst (s : String)
  | unavailableUnit (u : String)
  | inconsistentUnits
  | typeError
  | attrError
  | indexError
  | valueError
  deriving DecidableEq, Repr

/-! ## Values

The result of evaluating an expression: Python int/float collapse to `num`
(exact-rational idealization), plus complex numbers, unit quantities
(magnitude and unit name, see `UnitTable`), strings (the quoted arguments of
the internal `Unit(...)` constructor calls), and Python lists (the value of a
multi-statement or empty `ast.Module`; the empty list is the Empty result of
a blank or comment-only line). -/

/-- A composite unit: base-name/exponent pairs, name-sorted (e.g. the unit of
`Unit('40 lb')/Unit('1 ft3')` is `[("ft", -3), ("lb", 1)]`). -/
abbrev UnitE := List (String × Int)

inductive Value where
  | num (q : Q)
  | cplx (re im : Q)
  | unitV (mag : Q) (u : UnitE)
  | strV (s : String)
  | listV (vs : List Value)

/-- Python truthiness (`if out:`, `any([...])`, `x or y`): zero numbers, the
zero complex, the empty string and the empty list are falsy.  `unitclass`
quantities coerce to their float value, so a zero-magnitude quantity is
falsy. -/
def truthy : Value → Bool
  | .num q => q.n != 0
  | .cplx re im => re.n != 0 || im.n != 0
  | .unitV m _ => m.n != 0
  | .strV s => s ≠ ""
  | .listV vs => !vs.isEmpty

/-- Decimal rendering of a canonical rational (`str` of the idealized
number): integers without a decimal point, finite decimals otherwise
(the only values the pipeline produces; `k` searches for a power of ten
clearing the denominator). -/
def renderQ (a : Q) : String :=
  if a.d = 1 then toString a.n
  else
    let rec findK : Nat → Option Nat
      | 0 => none
      | k + 1 =>
        match findK k with
        | some j => some j
        | none => if (10 ^ (k + 1)) % a.d = 0 then some (k + 1) else none
    match findK 40 with
    | some k =>
      let scaled := a.n.natAbs * (10 ^ k) / a.d
      let s := toString scaled
      let s := if s.length ≤ k then String.mk (List.replicate (k + 1 - s.length) '0') ++ s else s
      let whole := s.dropRight k
      let frac := s.takeRight k
      (if a.n < 0 then "-" else "") ++ whole ++ "." ++ frac
    | none => toString a.n ++ "/" ++ toString a.d

/-- `str`/f-string rendering of a Python float (always shows a decimal
point), used by the `complex(0,{float(numstr)})` rewrite. -/
def renderPyFloat (a : Q) : String :=
  if a.d = 1 then toString a.n ++ ".0" else renderQ a

/-- Display form of a composite unit (single base names render as the bare
name, as `unitclass` does; composite display is model-chosen). -/
def renderUnitE : UnitE → String
  | [] => ""
  | [(n, 1)] => n
  | (n, e) :: rest =>
    (if e = 1 then n else n ++ toString e) ++
    (if rest.isEmpty then "" else "*" ++ renderUnitE rest)

/-- `str` of a value, as interpolated by `BeeParser._replacer`'s
`f'({repl})'`. -/
def renderValue : Value → String
  | .num q => renderQ q
  | .cplx re im => "(" ++ renderQ re ++ "+" ++ renderQ im ++ "j)"
  | .unitV m u => renderQ m ++ " " ++ renderUnitE u
  | .strV s => s
  | .listV _ => "[]"

/-! ## The variable environment

`BeeParser.vars`: a Python dict from identifier to value; modelled as an
association list with insert-or-overwrite. -/

abbrev VarEnv := List (String × Value)

def envGet (env : VarEnv) (k : String) : Option Value :=
  match env with
  | [] => none
  | (k', v) :: rest => if k' = k then some v else envGet rest k

def envSet (env : VarEnv) (k : String) (v : Value) : VarEnv :=
  match env with
  | [] => [(k, v)]
  | (k', v') :: rest => if k' = k then (k', v) :: rest else (k', v') :: envSet rest k v

/-- Python `a or b` over optional lookup results (`constants.get(x) or
self.vars.get(x)`): the first operand wins when truthy. -/
def pyOr (a b : Option Value) : Option Value :=
  match a with
  | some v => if truthy v then some v else b
  | none => b

/-- Python `any([x, y])` over optional lookup results. -/
def pyAny2 (a b : Option Value) : Bool :=
  (match a with | some v => truthy v | none => false) ||
  (match b with | some v => truthy v | none => false)

/-! ## The constant table

`BeeParser.constants`: the floats `math.e`, `math.pi`, `math.tau`,
`(1+sqrt 5)/2`, idealized by the rational value of their shortest repr
(which is also the exact text `_replacer` splices into the line). -/

def piQ : Q := mkQ 3141592653589793 (10 ^ 15)
def eQ : Q := mkQ 2718281828459045 (10 ^ 15)
def phiQ : Q := mkQ 1618033988749895 (10 ^ 15)
def tauQ : Q := mkQ 6283185307179586 (10 ^ 15)

def constGet (s : String) : Option Value :=
  if s = "e" then some (.num eQ)
  else if s = "pi" then some (.num piQ)
  else if s = "π" then some (.num piQ)
  else if s = "φ" then some (.num phiQ)
  else if s = "phi" then some (.num phiQ)
  else if s = "tau" then some (.num tauQ)
  else if s = "τ" then some (.num tauQ)
  else none

/-! ## The unit collaborator

Modelled from the spec: the external `unitclass` library is not part of this
repository; the spec describes it as "construct a unit value from a magnitude
and a unit-string; convert a unit value to a target unit, failing with an
unavailable-unit or inconsistent-units error; simplify/expand a unit value's
composite unit".  We model a quantity's unit as a list of
(base-unit-name, exponent) pairs, with a finite table of the unit names the
spec mentions, each with a dimension and an exact conversion factor to the
base unit of that dimension (`deg` is `pi/180 rad` with the idealized `pi`). -/

def unitTable : List (String × String × Q) :=
  [("rad", ("angle", qOne)),
   ("deg", ("angle", qDiv piQ (qOfInt 180))),
   ("m", ("length", qOne)),
   ("mm", ("length", mkQ 1 1000)),
   ("ft", ("length", mkQ 3048 10000)),
   ("in", ("length", mkQ 254 10000)),
   ("g", ("mass", qOne)),
   ("gram", ("mass", qOne)),
   ("grams", ("mass", qOne)),
   ("kg", ("mass", qOfInt 1000)),
   ("lb", ("mass", mkQ 45359237 100000)),
   ("s", ("time", qOne)),
   ("hr", ("time", qOfInt 3600)),
   ("USD", ("currency", qOne)),
   ("pct", ("dimensionless", mkQ 1 100)),
   ("unitless", ("dimensionless", qOne))]

def unitLookup (s : String) : Option (String × Q) :=
  (unitTable.find? (fun p => p.1 = s)).map (·.2)

/-- Insert an exponent into a name-sorted exponent list, dropping zeros. -/
def expInsert (n : String) (e : Int) : UnitE → UnitE
  | [] => if e = 0 then [] else [(n, e)]
  | (n', e') :: rest =>
    if n = n' then (if e + e' = 0 then rest else (n', e + e') :: rest)
    else if n < n' then (if e = 0 then (n', e') :: rest else (n, e) :: (n', e') :: rest)
    else (n', e') :: expInsert n e rest

def expMerge (a b : UnitE) : UnitE := a.foldl (fun acc (p : String × Int) => expInsert p.1 p.2 acc) b
def expNeg (a : UnitE) : UnitE := a.map (fun p => (p.1, -p.2))

/-- The dimension vector of a composite unit (None if some base name is
unknown). -/
def dimOf : UnitE → Option UnitE
  | [] => some []
  | (n, e) :: rest => do
    let (d, _) ← unitLookup n
    let r ← dimOf rest
    pure (expInsert d e r)

/-- The conversion factor of a composite unit to base units. -/
def facOf : UnitE → Q
  | [] => qOne
  | (n, e) :: rest =>
    match unitLookup n with
    | some (_, f) => qMul (qPowInt f e) (facOf rest)
    | none => facOf rest

/-- `Unit(mag, name)`-style construction from a single unit name. -/
def unitOfName (mag : Q) (s : String) : Except Err Value :=
  match unitLookup s with
  | some _ => .ok (.unitV mag [(s, 1)])
  | none => .error (.unavailableUnit s)

/-- `quantity.to(target)` — convert to a named unit, enforcing dimensional
consistency. -/
def unitConvert (mag : Q) (us : UnitE) (target : String) : Except Err Value :=
  match unitLookup target with
  | none => .error (.unavailableUnit target)
  | some _ =>
    match dimOf us, dimOf [(target, 1)] with
    | some d1, some d2 =>
      if d1 = d2 then .ok (.unitV (qMul mag (qDiv (facOf us) (facOf [(target, 1)]))) [(target, 1)])
      else .error .inconsistentUnits
    | _, _ => .error .inconsistentUnits

/-! ## Operator semantics

`BeeParser.operations` maps operator tags to Python operators; arithmetic on
the idealized values.  Paths outside the claims' reach (non-integer
exponents, bitwise ops on negatives, string repetition, ...) are modelled as
a `TypeError`. -/

/-- Python `float()` coercion (used by `math.sin` & friends on a
`unitclass` quantity, which coerces to its magnitude). -/
def floatOf : Value → Except Err Q
  | .num q => .ok q
  | .unitV m _ => .ok m
  | _ => .error .typeError

inductive BOp where
  | add | sub | mult | div | floorDiv | mod | pow | lshift | rshift | bitOr | bitAnd
  deriving DecidableEq, Repr

inductive UOp where
  | neg | pos
  deriving DecidableEq, Repr

/-- Nonnegative-integer extraction for the bitwise/shift operators. -/
def natOf (v : Value) : Option Nat :=
  match v with
  | .num q => if q.d = 1 && 0 ≤ q.n then some q.n.toNat else none
  | _ => none

def applyBin (op : BOp) (l r : Value) : Except Err Value :=
  match op with
  | .add =>
    match l, r with
    | .num a, .num b => .ok (.num (qAdd a b))
    | .cplx a b, .cplx c d => .ok (.cplx (qAdd a c) (qAdd b d))
    | .cplx a b, .num c => .ok (.cplx (qAdd a c) b)
    | .num a, .cplx c d => .ok (.cplx (qAdd a c) d)
    | .unitV m u, .unitV m' u' =>
      if u = u' then .ok (.unitV (qAdd m m') u)
      else
        match dimOf u, dimOf u' with
        | some d1, some d2 =>
          if d1 = d2 then .ok (.unitV (qAdd m (qMul m' (qDiv (facOf u') (facOf u)))) u)
          else .error .inconsistentUnits
        | _, _ => .error .inconsistentUnits
    | .unitV _ _, _ => .error .inconsistentUnits
    | _, .unitV _ _ => .error .inconsistentUnits
    | _, _ => .error .typeError
  | .sub =>
    match l, r with
    | .num a, .num b => .ok (.num (qSub a b))
    | .cplx a b, .cplx c d => .ok (.cplx (qSub a c) (qSub b d))
    | .cplx a b, .num c => .ok (.cplx (qSub a c) b)
    | .num a, .cplx c d => .ok (.cplx (qSub a c) (qNeg d))
    | .unitV m u, .unitV m' u' =>
      if u = u' then .ok (.unitV (qSub m m') u)
      else
        match dimOf u, dimOf u' with
        | some d1, some d2 =>
          if d1 = d2 then .ok (.unitV (qSub m (qMul m' (qDiv (facOf u') (facOf u)))) u)
          else .error .inconsistentUnits
        | _, _ => .error .inconsistentUnits
    | .unitV _ _, _ => .error .inconsistentUnits
    | _, .unitV _ _ => .error .inconsistentUnits
    | _, _ => .error .typeError
  | .mult =>
    match l, r with
    | .num a, .num b => .ok (.num (qMul a b))
    | .cplx a b, .cplx c d => .ok (.cplx (qSub (qMul a c) (qMul b d)) (qAdd (qMul a d) (qMul b c)))
    | .cplx a b, .num c => .ok (.cplx (qMul a c) (qMul b c))
    | .num a, .cplx c d => .ok (.cplx (qMul a c) (qMul a d))
    | .unitV m u, .unitV m' u' => .ok (.unitV (qMul m m') (expMerge u u'))
    | .unitV m u, .num b => .ok (.unitV (qMul m b) u)
    | .num a, .unitV m' u' => .ok (.unitV (qMul a m') u')
    | _, _ => .error .typeError
  | .div =>
    match l, r with
    | .num a, .num b => if b.n = 0 then .error .zeroDivision else .ok (.num (qDiv a b))
    | .cplx a b, .num c => if c.n = 0 then .error .zeroDivision else .ok (.cplx (qDiv a c) (qDiv b c))
    | .num a, .cplx c d =>
      let den := qAdd (qMul c c) (qMul d d)
      if den.n = 0 then .error .zeroDivision
      else .ok (.cplx (qDiv (qMul a c) den) (qNeg (qDiv (qMul a d) den)))
    | .cplx a b, .cplx c d =>
      let den := qAdd (qMul c c) (qMul d d)
      if den.n = 0 then .error .zeroDivision
      else .ok (.cplx (qDiv (qAdd (qMul a c) (qMul b d)) den) (qDiv (qSub (qMul b c) (qMul a d)) den))
    | .unitV m u, .unitV m' u' =>
      if m'.n = 0 then .error .zeroDivision
      else .ok (.unitV (qDiv m m') (expMerge u (expNeg u')))
    | .unitV m u, .num b => if b.n = 0 then .error .zeroDivision else .ok (.unitV (qDiv m b) u)
    | .num a, .unitV m' u' =>
      if m'.n = 0 then .error .zeroDivision else .ok (.unitV (qDiv a m') (expNeg u'))
    | _, _ => .error .typeError
  | .floorDiv =>
    match l, r with
    | .num a, .num b => if b.n = 0 then .error .zeroDivision else .ok (.num (qFloorDiv a b))
    | _, _ => .error .typeError
  | .mod =>
    match l, r with
    | .num a, .num b => if b.n = 0 then .error .zeroDivision else .ok (.num (qMod a b))
    | _, _ => .error .typeError
  | .pow =>
    match l, r with
    | .num a, .num b =>
      if b.d = 1 then
        if a.n = 0 && b.n < 0 then .error .zeroDivision
        else .ok (.num (qPowInt a b.n))
      else .error .typeError
    | .unitV m u, .num b =>
      if b.d = 1 then
        if m.n = 0 && b.n < 0 then .error .zeroDivision
        else .ok (.unitV (qPowInt m b.n) (u.map (fun p => (p.1, p.2 * b.n))))
      else .error .typeError
    | _, _ => .error .typeError
  | .lshift =>
    match natOf l, natOf r with
    | some a, some b => .ok (.num (qOfInt (a <<< b : Nat)))
    | _, _ => .error .typeError
  | .rshift =>
    match natOf l, natOf r with
    | some a, some b => .ok (.num (qOfInt (a >>> b : Nat)))
    | _, _ => .error .typeError
  | .bitOr =>
    match natOf l, natOf r with
    | some a, some b => .ok (.num (qOfInt (a ||| b : Nat)))
    | _, _ => .error .typeError
  | .bitAnd =>
    match natOf l, natOf r with
    | some a, some b => .ok (.num (qOfInt (a &&& b : Nat)))
    | _, _ => .error .typeError

def applyUn (op : UOp) (v : Value) : Except Err Value :=
  match op with
  | .neg =>
    match v with
    | .num q => .ok (.num (qNeg q))
    | .cplx a b => .ok (.cplx (qNeg a) (qNeg b))
    | .unitV m u => .ok (.unitV (qNeg m) u)
    | _ => .error .typeError
  | .pos =>
    match v with
    | .num _ | .cplx _ _ | .unitV _ _ => .ok v
    | _ => .error .typeError

/-- `BeeParser.convert`, the implementation of the `in` conversion operator:
a unit left operand is converted to the right operand's unit; a plain-number
left operand is wrapped as a quantity of the target unit directly
(`Unit(from_unit, to_unit.unit)`).  A non-quantity right operand hits
`to_unit.unit` and raises (AttributeError). -/
def convertV (fromV toV : Value) : Except Err Value :=
  match toV with
  | .unitV _ tu =>
    match fromV with
    | .unitV m u =>
      match tu with
      | [(t, 1)] => unitConvert m u t
      | _ =>
        match dimOf u, dimOf tu with
        | some d1, some d2 =>
          if d1 = d2 then .ok (.unitV (qMul m (qDiv (facOf u) (facOf tu))) tu)
          else .error .inconsistentUnits
        | _, _ => .error .inconsistentUnits
    | .num q => .ok (.unitV q tu)
    | _ => .error .typeError
  | _ => .error .attrError

/-! ## The function table

`BeeParser.functions`.  The trigonometric entries are parameters of the
model (`Cfg`): the pipeline is proved correct for every implementation of
`sin`/`cos`/`tan` over the idealized numbers.  Functions whose exact
numerics are irrelevant to every claim (e.g. `erf`) keep their table entry
(so they do not raise Bad Function) but are modelled as a `TypeError`. -/

structure Cfg where
  sinF : Q → Q
  cosF : Q → Q
  tanF : Q → Q

/-- A default instantiation for closed evaluations that never reach the
trigonometric entries. -/
def defaultCfg : Cfg := ⟨fun _ => qZero, fun _ => qZero, fun _ => qZero⟩

/-- All keys of `BeeParser.functions` (a call to any other name raises
`ValueError: Bad Function`). -/
def knownFuncNames : List String :=
  ["mod", "acos", "acosh", "asin", "asinh", "atan", "atan2", "atanh", "ceil",
   "comb", "cos", "cosh", "dist", "erf", "erfc", "exp", "expm1", "fabs",
   "factorial", "floor", "fmod", "frexp", "gamma", "gcd", "hypot", "lcm",
   "ldexp", "lgamma", "log", "log10", "log1p", "log2", "modf", "perm",
   "remainder", "sin", "sinh", "sqrt", "tan", "tanh", "trunc", "ulp",
   "degrees", "radians", "abs", "bin", "complex", "divmod", "float", "int",
   "hex", "oct", "max", "min", "pow", "round", "expand", "simplify"]

def applyFun (cfg : Cfg) (f : String) (args : List Value) : Except Err Value :=
  match f, args with
  | "sin", [v] => (floatOf v).map (fun q => .num (cfg.sinF q))
  | "cos", [v] => (floatOf v).map (fun q => .num (cfg.cosF q))
  | "tan", [v] => (floatOf v).map (fun q => .num (cfg.tanF q))
  | "factorial", [.num q] =>
    if q.d = 1 && 0 ≤ q.n then .ok (.num (qOfInt (Nat.factorial q.n.toNat))) else .error .typeError
  | "abs", [.num q] => .ok (.num (qAbs q))
  | "abs", [.unitV m u] => .ok (.unitV (qAbs m) u)
  | "fabs", [v] => (floatOf v).map (fun q => .num (qAbs q))
  | "floor", [v] => (floatOf v).map (fun q => .num (qOfInt (qFloorInt q)))
  | "ceil", [v] => (floatOf v).map (fun q => .num (qOfInt (-(Int.fdiv (-q.n) (q.d : Int)))))
  | "trunc", [v] => (floatOf v).map (fun q => .num (qOfInt (q.n / (q.d : Int))))
  | "int", [v] => (floatOf v).map (fun q => .num (qOfInt (q.n / (q.d : Int))))
  | "float", [v] => (floatOf v).map (fun q => .num q)
  | "complex", [v] => (floatOf v).map (fun q => .cplx q qZero)
  | "complex", [a, b] => do
    let qa ← floatOf a
    let qb ← floatOf b
    .ok (.cplx qa qb)
  | "mod", [a, b] => applyBin .mod a b
  | "pow", [a, b] => applyBin .pow a b
  | "gcd", [.num a, .num b] =>
    if a.d = 1 && b.d = 1 then .ok (.num (qOfInt (gcdE a.n.natAbs b.n.natAbs)))
    else .error .typeError
  | "degrees", [v] => (floatOf v).map (fun q => .num (qMul q (qDiv (qOfInt 180) piQ)))
  | "radians", [v] => (floatOf v).map (fun q => .num (qMul q (qDiv piQ (qOfInt 180))))
  | "expand", [.unitV m u] => .ok (.unitV m u)
  | "expand", [v] => (floatOf v).map (fun q => .unitV q [])
  | "simplify", [.unitV m u] => .ok (.unitV m u)
  | "simplify", [v] => (floatOf v).map (fun q => .unitV q [])
  | _, _ => if knownFuncNames.contains f then .error .typeError else .error (.badFunction f)

/-- `BeeParser.angle_funcs`. -/
def angleFuncs : List String := ["cos", "sin", "tan"]

/-! ## The expression grammar (model of `ast.parse` on the preprocessor's
output language) -/

inductive Lit where
  | numL (q : Q)
  | strL (s : String)

inductive Expr where
  | lit (l : Lit)
  | name (s : String)
  | bin (op : BOp) (l r : Expr)
  | un (op : UOp) (e : Expr)
  /-- `ast.Compare` with the `in` operator; `evaluate` only uses the first
  comparator, so later chain members are dropped at parse time. -/
  | cmpIn (l r : Expr)
  /-- `ast.Compare` whose first operator is `<` or `>`: `evaluate` computes
  `left` and `comparators[0]`, then the `operations` lookup raises
  `ValueError: Bad Operator` (neither `Lt` nor `Gt` is in the table). -/
  | cmpOther (l r : Expr)
  | call (f : Expr) (args : List Expr)
  /-- `ast.Subscript` in expression position: `evaluate` has no branch for
  it, so the final `else` raises `TypeError` without visiting children. -/
  | subscriptE (base idx : Expr)
  /-- `ast.List` in expression position: likewise the final `else` raises
  `TypeError` without visiting the elements. -/
  | listE (elts : List Expr)

/-- An assignment target as the `ast.Assign` branch consumes it: only
`target.id` is read, so a target either is a `Name` (its identifier is
bound) or has no `.id` attribute (`Subscript`, `List`) and raises
`AttributeError` when its turn comes. -/
inductive Target where
  | tName (s : String)
  | tOther

inductive Stmt where
  | exprS (e : Expr)
  | assignS (targets : List Target) (value : Expr)

inductive Tok where
  | num (q : Q)
  | str (s : String)
  | name (s : String)
  | kwIn
  | lparen | rparen | lbrack | rbrack | comma | semi | eq
  | plus | minus | star | dstar | slash | dslash | percent
  | lsh | rsh | amp | pipe | lt | gt
  deriving DecidableEq, Repr

def digitsToNat (ds : List Char) : Nat :=
  ds.foldl (fun a c => a * 10 + (c.toNat - '0'.toNat)) 0

/-- Read the optional exponent part of a float literal (`e`/`E`, optional
sign, mandatory digits). -/
def readExp (base : Q) (cs : List Char) : Option (Q × List Char) :=
  match cs with
  | 'e' :: rest | 'E' :: rest =>
    let (sgn, r2) : Int × List Char :=
      match rest with
      | '+' :: r => (1, r)
      | '-' :: r => (-1, r)
      | r => (1, r)
    let ds := r2.takeWhile (·.isDigit)
    if ds.isEmpty then none
    else some (qMul base (qPowInt (qOfInt 10) (sgn * (digitsToNat ds : Int))), r2.drop ds.length)
  | _ => some (base, cs)

/-- Read a numeric literal (Python `NUMBER` token over the digits, `.` and
exponent forms the pipeline produces). -/
def readNum (cs : List Char) : Option (Q × List Char) :=
  let ip := cs.takeWhile (·.isDigit)
  let rest := cs.drop ip.length
  match rest with
  | '.' :: r2 =>
    let fp := r2.takeWhile (·.isDigit)
    if ip.isEmpty && fp.isEmpty then none
    else
      let mant := qDiv (qOfInt (digitsToNat (ip ++ fp) : Int)) (qOfInt ((10 : Int) ^ fp.length))
      readExp mant (r2.drop fp.length)
  | _ =>
    if ip.isEmpty then none
    else readExp (qOfInt (digitsToNat ip : Int)) rest

def isNameStartC (c : Char) : Bool := isWordC c && !c.isDigit

def tokenize : Nat → List Char → Except Err (List Tok)
  | 0, _ => .error .syntaxError
  | _ + 1, [] => .ok []
  | fuel + 1, c :: cs =>
    if isWsC c then tokenize fuel cs
    else if c.isDigit || (c = '.' && (match cs with | d :: _ => d.isDigit | [] => false)) then
      match readNum (c :: cs) with
      | some (q, rest) => (tokenize fuel rest).map (Tok.num q :: ·)
      | none => .error .syntaxError
    else if isNameStartC c then
      let nm := (c :: cs).takeWhile isWordC
      let rest := (c :: cs).drop nm.length
      let tk := if String.mk nm = "in" then Tok.kwIn else Tok.name (String.mk nm)
      (tokenize fuel rest).map (tk :: ·)
    else if c = '\'' then
      let sd := cs.takeWhile (· ≠ '\'')
      match cs.drop sd.length with
      | '\'' :: rest => (tokenize fuel rest).map (Tok.str (String.mk sd) :: ·)
      | _ => .error .syntaxError
    else
      match c, cs with
      | '*', '*' :: rest => (tokenize fuel rest).map (Tok.dstar :: ·)
      | '*', rest => (tokenize fuel rest).map (Tok.star :: ·)
      | '/', '/' :: rest => (tokenize fuel rest).map (Tok.dslash :: ·)
      | '/', rest => (tokenize fuel rest).map (Tok.slash :: ·)
      | '<', '<' :: rest => (tokenize fuel rest).map (Tok.lsh :: ·)
      | '<', rest => (tokenize fuel rest).map (Tok.lt :: ·)
      | '>', '>' :: rest => (tokenize fuel rest).map (Tok.rsh :: ·)
      | '>', rest => (tokenize fuel rest).map (Tok.gt :: ·)
      | '[', rest => (tokenize fuel rest).map (Tok.lbrack :: ·)
      | ']', rest => (tokenize fuel rest).map (Tok.rbrack :: ·)
      | '+', rest => (tokenize fuel rest).map (Tok.plus :: ·)
      | '-', rest => (tokenize fuel rest).map (Tok.minus :: ·)
      | '%', rest => (tokenize fuel rest).map (Tok.percent :: ·)
      | '&', rest => (tokenize fuel rest).map (Tok.amp :: ·)
      | '|', rest => (tokenize fuel rest).map (Tok.pipe :: ·)
      | '(', rest => (tokenize fuel rest).map (Tok.lparen :: ·)
      | ')', rest => (tokenize fuel rest).map (Tok.rparen :: ·)
      | ',', rest => (tokenize fuel rest).map (Tok.comma :: ·)
      | ';', rest => (tokenize fuel rest).map (Tok.semi :: ·)
      | '=', rest => (tokenize fuel rest).map (Tok.eq :: ·)
      | _, _ => .error .syntaxError

/-! ## Recursive-descent parser (Python expression grammar, the fragment the
preprocessor emits; fuel-driven recursion, the top-level fuel always
suffices) -/

/-- Which expressions `ast.parse` accepts as assignment targets (of those
this grammar produces): a `Name` — possibly parenthesized, parentheses are
not part of the tree — binds its identifier; `Subscript` and `List` targets
parse but have no `.id`; anything else is rejected at parse time
(`SyntaxError: cannot assign to ...`). -/
def exprTarget : Expr → Option Target
  | .name n => some (.tName n)
  | .subscriptE _ _ => some .tOther
  | .listE _ => some .tOther
  | _ => none

mutual

def parseStmts : Nat → List Tok → Except Err (List Stmt)
  | 0, _ => .error .syntaxError
  | fuel + 1, ts =>
    match ts with
    | [] => .ok []
    | _ => do
      let (s, rest) ← parseStmt fuel ts
      match rest with
      | [] => .ok [s]
      | .semi :: rest2 =>
        match rest2 with
        | [] => .ok [s]
        | _ => do
          let ss ← parseStmts fuel rest2
          .ok (s :: ss)
      | _ => .error .syntaxError

def parseStmt : Nat → List Tok → Except Err (Stmt × List Tok)
  | 0, _ => .error .syntaxError
  | fuel + 1, ts => do
    let (e, rest) ← parseExpr fuel ts
    match rest with
    | .eq :: rest2 =>
      match exprTarget e with
      | some tgt => do
        let (s2, rest3) ← parseStmt fuel rest2
        match s2 with
        | .assignS tgts v => .ok (.assignS (tgt :: tgts) v, rest3)
        | .exprS v => .ok (.assignS [tgt] v, rest3)
      | none => .error .syntaxError
    | _ => .ok (.exprS e, rest)

def parseExpr : Nat → List Tok → Except Err (Expr × List Tok)
  | 0, _ => .error .syntaxError
  | fuel + 1, ts => do
    let (l, rest) ← parseBitOr fuel ts
    match rest with
    | .kwIn :: rest2 => do
      let (r, rest3) ← parseBitOr fuel rest2
      skipChain fuel (.cmpIn l r) rest3
    | .lt :: rest2 => do
      let (r, rest3) ← parseBitOr fuel rest2
      skipChain fuel (.cmpOther l r) rest3
    | .gt :: rest2 => do
      let (r, rest3) ← parseBitOr fuel rest2
      skipChain fuel (.cmpOther l r) rest3
    | _ => .ok (l, rest)

/-- Consume further chain members (`in`, `<`, `>`); `evaluate` only reads
the first operator and comparator of an `ast.Compare`, so they are
dropped. -/
def skipChain : Nat → Expr → List Tok → Except Err (Expr × List Tok)
  | 0, _, _ => .error .syntaxError
  | fuel + 1, acc, ts =>
    match ts with
    | .kwIn :: rest => do
      let (_, rest2) ← parseBitOr fuel rest
      skipChain fuel acc rest2
    | .lt :: rest => do
      let (_, rest2) ← parseBitOr fuel rest
      skipChain fuel acc rest2
    | .gt :: rest => do
      let (_, rest2) ← parseBitOr fuel rest
      skipChain fuel acc rest2
    | _ => .ok (acc, ts)

def parseBitOr : Nat → List Tok → Except Err (Expr × List Tok)
  | 0, _ => .error .syntaxError
  | fuel + 1, ts => do
    let (l, rest) ← parseBitAnd fuel ts
    loopBitOr fuel l rest

def loopBitOr : Nat → Expr → List Tok → Except Err (Expr × List Tok)
  | 0, _, _ => .error .syntaxError
  | fuel + 1, acc, ts =>
    match ts with
    | .pipe :: rest => do
      let (r, rest2) ← parseBitAnd fuel rest
      loopBitOr fuel (.bin .bitOr acc r) rest2
    | _ => .ok (acc, ts)

def parseBitAnd : Nat → List Tok → Except Err (Expr × List Tok)
  | 0, _ => .error .syntaxError
  | fuel + 1, ts => do
    let (l, rest) ← parseShift fuel ts
    loopBitAnd fuel l rest

def loopBitAnd : Nat → Expr → List Tok → Except Err (Expr × List Tok)
  | 0, _, _ => .error .syntaxError
  | fuel + 1, acc, ts =>
    match ts with
    | .amp :: rest => do
      let (r, rest2) ← parseShift fuel rest
      loopBitAnd fuel (.bin .bitAnd acc r) rest2
    | _ => .ok (acc, ts)

def parseShift : Nat → List Tok → Except Err (Expr × List Tok)
  | 0, _ => .error .syntaxError
  | fuel + 1, ts => do
    let (l, rest) ← parseArith fuel ts
    loopShift fuel l rest

def loopShift : Nat → Expr → List Tok → Except Err (Expr × List Tok)
  | 0, _, _ => .error .syntaxError
  | fuel + 1, acc, ts =>
    match ts with
    | .lsh :: rest => do
      let (r, rest2) ← parseArith fuel rest
      loopShift fuel (.bin .lshift acc r) rest2
    | .rsh :: rest => do
      let (r, rest2) ← parseArith fuel rest
      loopShift fuel (.bin .rshift acc r) rest2
    | _ => .ok (acc, ts)

def parseArith : Nat → List Tok → Except Err (Expr × List Tok)
  | 0, _ => .error .syntaxError
  | fuel + 1, ts => do
    let (l, rest) ← parseTerm fuel ts
    loopArith fuel l rest

def loopArith : Nat → Expr → List Tok → Except Err (Expr × List Tok)
  | 0, _, _ => .error .syntaxError
  | fuel + 1, acc, ts =>
    match ts with
    | .plus :: rest => do
      let (r, rest2) ← parseTerm fuel rest
      loopArith fuel (.bin .add acc r) rest2
    | .minus :: rest => do
      let (r, rest2) ← parseTerm fuel rest
      loopArith fuel (.bin .sub acc r) rest2
    | _ => .ok (acc, ts)

def parseTerm : Nat → List Tok → Except Err (Expr × List Tok)
  | 0, _ => .error .syntaxError
  | fuel + 1, ts => do
    let (l, rest) ← parseFactor fuel ts
    loopTerm fuel l rest

def loopTerm : Nat → Expr → List Tok → Except Err (Expr × List Tok)
  | 0, _, _ => .error .syntaxError
  | fuel + 1, acc, ts =>
    match ts with
    | .star :: rest => do
      let (r, rest2) ← parseFactor fuel rest
      loopTerm fuel (.bin .mult acc r) rest2
    | .slash :: rest => do
      let (r, rest2) ← parseFactor fuel rest
      loopTerm fuel (.bin .div acc r) rest2
    | .dslash :: rest => do
      let (r, rest2) ← parseFactor fuel rest
      loopTerm fuel (.bin .floorDiv acc r) rest2
    | .percent :: rest => do
      let (r, rest2) ← parseFactor fuel rest
      loopTerm fuel (.bin .mod acc r) rest2
    | _ => .ok (acc, ts)

def parseFactor : Nat → List Tok → Except Err (Expr × List Tok)
  | 0, _ => .error .syntaxError
  | fuel + 1, ts =>
    match ts with
    | .plus :: rest => do
      let (e, r) ← parseFactor fuel rest
      .ok (.un .pos e, r)
    | .minus :: rest => do
      let (e, r) ← parseFactor fuel rest
      .ok (.un .neg e, r)
    | _ => parsePower fuel ts

def parsePower : Nat → List Tok → Except Err (Expr × List Tok)
  | 0, _ => .error .syntaxError
  | fuel + 1, ts => do
    let (b, rest) ← parsePostfix fuel ts
    match rest with
    | .dstar :: rest2 => do
      let (e, rest3) ← parseFactor fuel rest2
      .ok (.bin .pow b e, rest3)
    | _ => .ok (b, rest)

def parsePostfix : Nat → List Tok → Except Err (Expr × List Tok)
  | 0, _ => .error .syntaxError
  | fuel + 1, ts => do
    let (a, rest) ← parseAtom fuel ts
    loopCall fuel a rest

def loopCall : Nat → Expr → List Tok → Except Err (Expr × List Tok)
  | 0, _, _ => .error .syntaxError
  | fuel + 1, acc, ts =>
    match ts with
    | .lparen :: rest => do
      let (args, rest2) ← parseArgs fuel rest
      loopCall fuel (.call acc args) rest2
    | .lbrack :: rest => do
      let (idx, rest2) ← parseExpr fuel rest
      match rest2 with
      | .rbrack :: rest3 => loopCall fuel (.subscriptE acc idx) rest3
      | _ => .error .syntaxError
    | _ => .ok (acc, ts)

def parseArgs : Nat → List Tok → Except Err (List Expr × List Tok)
  | 0, _ => .error .syntaxError
  | fuel + 1, ts =>
    match ts with
    | .rparen :: rest => .ok ([], rest)
    | _ => do
      let (e, rest) ← parseExpr fuel ts
      argsLoop fuel [e] rest

def argsLoop : Nat → List Expr → List Tok → Except Err (List Expr × List Tok)
  | 0, _, _ => .error .syntaxError
  | fuel + 1, acc, ts =>
    match ts with
    | .comma :: rest => do
      let (e, rest2) ← parseExpr fuel rest
      argsLoop fuel (acc ++ [e]) rest2
    | .rparen :: rest => .ok (acc, rest)
    | _ => .error .syntaxError

def parseAtom : Nat → List Tok → Except Err (Expr × List Tok)
  | 0, _ => .error .syntaxError
  | fuel + 1, ts =>
    match ts with
    | .num q :: rest => .ok (.lit (.numL q), rest)
    | .str s :: rest => .ok (.lit (.strL s), rest)
    | .name s :: rest => .ok (.name s, rest)
    | .lparen :: rest => do
      let (e, rest2) ← parseExpr fuel rest
      match rest2 with
      | .rparen :: r3 => .ok (e, r3)
      | _ => .error .syntaxError
    | .lbrack :: rest => do
      let (elts, rest2) ← parseElts fuel rest
      .ok (.listE elts, rest2)
    | _ => .error .syntaxError

def parseElts : Nat → List Tok → Except Err (List Expr × List Tok)
  | 0, _ => .error .syntaxError
  | fuel + 1, ts =>
    match ts with
    | .rbrack :: rest => .ok ([], rest)
    | _ => do
      let (e, rest) ← parseExpr fuel ts
      eltsLoop fuel [e] rest

def eltsLoop : Nat → List Expr → List Tok → Except Err (List Expr × List Tok)
  | 0, _, _ => .error .syntaxError
  | fuel + 1, acc, ts =>
    match ts with
    | .comma :: rest => do
      let (e, rest2) ← parseExpr fuel rest
      eltsLoop fuel (acc ++ [e]) rest2
    | .rbrack :: rest => .ok (acc, rest)
    | _ => .error .syntaxError

end

/-- `ast.parse` on the preprocessed text: tokenize, then parse the statement
list (the module body). -/
def parseModule (t : List Char) : Except Err (List Stmt) := do
  let toks ← tokenize (t.length + 1) t
  parseStmts (12 * toks.length + 12) toks

/-! ## The evaluator (`BeeParser.evaluate`)

Recursive walk of the parsed tree.  Expressions read the environment but
never write it (assignment is a statement); the statement evaluator threads
the environment. -/

/-- `Unit('<numstr> <unitstr>')`: the string form of the quantity
constructor emitted by the preprocessor (a bare name constructs a
magnitude-1 quantity). -/
def unitFromString (s : String) : Except Err Value :=
  let cs := s.data
  let numPart := cs.takeWhile (· ≠ ' ')
  match cs.drop numPart.length with
  | ' ' :: nameCs =>
    let nm := String.mk nameCs
    (match readNum numPart with
     | some (q, []) => unitOfName q nm
     | _ => .error (.unavailableUnit s))
  | _ => unitOfName qOne (String.mk numPart)

/-- The radian conversion applied to the first argument of the designated
angle-accepting functions (`sin`, `cos`, `tan`) when it is a unit quantity;
plain numeric arguments pass through unchanged. -/
def angleAdjust (fid : String) (args : List Value) : Except Err (List Value) :=
  if angleFuncs.contains fid then
    match args with
    | [] => .error .indexError
    | a0 :: rest =>
      match a0 with
      | .unitV m u => (unitConvert m u "rad").map (· :: rest)
      | _ => .ok args
  else .ok args

/-- The `ast.Name` branch of `evaluate`: `if not any([const, var])`, try the
bare identifier as a unit name (any constructor failure becomes
`ValueError: Bad constant or variable`); otherwise `return var or const` —
both gates read the Python truthiness of the stored values. -/
def evalName (env : VarEnv) (s : String) : Except Err Value :=
  let c := constGet s
  let v := envGet env s
  if !pyAny2 c v then
    match unitFromString s with
    | .ok u => .ok u
    | .error _ => .error (.badNameOrConst s)
  else
    match pyOr v c with
    | some val => .ok val
    | none => .error (.badNameOrConst s)

mutual

def evalExpr (cfg : Cfg) (env : VarEnv) : Expr → Except Err Value
  | .lit (.numL q) => .ok (.num q)
  | .lit (.strL s) => .ok (.strV s)
  | .name s => evalName env s
  | .bin op l r => do
    let lv ← evalExpr cfg env l
    let rv ← evalExpr cfg env r
    applyBin op lv rv
  | .un op e => do
    let v ← evalExpr cfg env e
    applyUn op v
  | .cmpIn l r => do
    let lv ← evalExpr cfg env l
    let rv ← evalExpr cfg env r
    convertV lv rv
  | .cmpOther l r => do
    -- `left` and `comparators[0]` are evaluated first; then the
    -- `operations[type(op)]` lookup raises `ValueError: Bad Operator`.
    let _ ← evalExpr cfg env l
    let _ ← evalExpr cfg env r
    .error .badOperator
  | .subscriptE _ _ => .error .typeError
  | .listE _ => .error .typeError
  | .call f args =>
    match f with
    | .lit (.numL q) =>
      -- implied multiplication of a number: `node.func.value * evaluate(args[0])`
      match args with
      | a :: _ => do
        let av ← evalExpr cfg env a
        applyBin .mult (.num q) av
      | [] => .error .indexError
    | .lit (.strL _) => .error .typeError
    | .name fid =>
      let c := constGet fid
      let v := envGet env fid
      if pyAny2 v c then
        -- implied multiplication of a var/const: `(const or var) * evaluate(args[0])`
        match args with
        | a :: _ => do
          let av ← evalExpr cfg env a
          match pyOr c v with
          | some mv => applyBin .mult mv av
          | none => .error .typeError
        | [] => .error .indexError
      else if fid = "Unit" then
        match args with
        | [] => .error .indexError
        | [a] =>
          match a with
          | .lit (.strL s) => unitFromString s
          | .lit (.numL q) => .ok (.unitV q [])
          | _ => .error .attrError
        | a :: b :: _ => do
          let av ← evalExpr cfg env a
          match b with
          | .lit (.strL s) =>
            (match av with
             | .num q => unitOfName q s
             | _ => .error .typeError)
          | _ => .error .attrError
      else do
        let argvs ← evalArgs cfg env args
        let argvs ← angleAdjust fid argvs
        applyFun cfg fid argvs
    | _ => .error .attrError

def evalArgs (cfg : Cfg) (env : VarEnv) : List Expr → Except Err (List Value)
  | [] => .ok []
  | a :: rest => do
    let v ← evalExpr cfg env a
    let vs ← evalArgs cfg env rest
    .ok (v :: vs)

end

/-- `for target in node.targets: self.vars[target.id] = value`, visiting
the targets left to right: a `Name` target is bound; the first target with
no `.id` raises `AttributeError`, keeping the bindings already made. -/
def bindTargets (vv : Value) : List Target → VarEnv → Option Err × VarEnv
  | [], env => (none, env)
  | .tName n :: rest, env => bindTargets vv rest (envSet env n vv)
  | .tOther :: _, env => (some .attrError, env)

/-- Evaluate one statement: expression statements leave the environment
untouched; an assignment evaluates its right-hand side first and then binds
its targets in order — the parser's dict mutates in place, so an error
raised mid-statement keeps the bindings already made. -/
def evalStmt (cfg : Cfg) (env : VarEnv) : Stmt → Except Err Value × VarEnv
  | .exprS e => (evalExpr cfg env e, env)
  | .assignS tgts v =>
    match evalExpr cfg env v with
    | .error e => (.error e, env)
    | .ok vv =>
      match bindTargets vv tgts env with
      | (none, env') => (.ok vv, env')
      | (some e, env') => (.error e, env')

/-- Evaluate the module body in order, collecting statement values; on an
error the environment reflects the mutations already performed. -/
def evalStmtsGo (cfg : Cfg) (env : VarEnv) (acc : List Value) :
    List Stmt → Except Err Value × VarEnv
  | [] =>
    (.ok (match acc.reverse with
          | [v] => v
          | vs => .listV vs), env)
  | s :: rest =>
    match evalStmt cfg env s with
    | (.error e, env') => (.error e, env')
    | (.ok v, env') => evalStmtsGo cfg env' (v :: acc) rest

/-! ## The preprocessor (`BeeParser.parse`)

The ordered textual rewrite pipeline, step by step in source order.  Each
regex is embedded as a dedicated scanner with the same match semantics on
this alphabet; the repeat-until-no-match loops run on a fuel that their
termination measure proves sufficient (claim C9). -/

/-- `str.strip()`. -/
def stripWs (t : List Char) : List Char :=
  ((t.dropWhile (isWsC ·)).reverse.dropWhile (isWsC ·)).reverse

/-- `text.replace('^', '**')`. -/
def caretToPow (t : List Char) : List Char :=
  t.flatMap (fun c => if c = '^' then ['*', '*'] else [c])

/-- `extra_spaces_re = \s\s+` replaced by a single space: collapse every run
of two or more whitespace characters (fuel-driven structural recursion so
that evaluation reduces in the kernel; each step shortens the text, so
length-plus-one fuel is exact). -/
def extraSpacesF : Nat → List Char → List Char
  | 0, t => t
  | _ + 1, [] => []
  | fuel + 1, c1 :: cs =>
    match cs with
    | [] => [c1]
    | c2 :: rest =>
      if isWsC c1 && isWsC c2 then extraSpacesF fuel (' ' :: rest)
      else c1 :: extraSpacesF fuel cs

def extraSpaces (t : List Char) : List Char := extraSpacesF (t.length + 1) t

/-- The lookbehind/lookahead character classes of `eliminate_spaces_re`. -/
def elimPrevC (c : Char) : Bool :=
  c = '(' || c = '+' || c = '-' || c = '*' || c = '/' || c = '^'

def elimNextC (c : Char) : Bool :=
  c = ')' || c = '+' || c = '-' || c = '*' || c = '/' || c = '^'

/-- `eliminate_spaces_re`: delete each space that is adjacent (in the
original text — regex lookarounds) to a parenthesis or arithmetic
operator. -/
def elimSpaces (prev : Option Char) : List Char → List Char
  | [] => []
  | c :: cs =>
    let keep :=
      !(c = ' ' &&
        ((match prev with | some p => elimPrevC p | none => false) ||
         (match cs.head? with | some n => elimNextC n | none => false)))
    if keep then c :: elimSpaces (some c) cs else elimSpaces (some c) cs

/-- Strip comments: `text[:text.find('#')]`. -/
def stripComment (t : List Char) : List Char := t.takeWhile (· ≠ '#')

/-- `text.replace('@', 'ans')`. -/
def atToAns (t : List Char) : List Char :=
  t.flatMap (fun c => if c = '@' then ['a', 'n', 's'] else [c])

/-- `double_in_re = " in in\s+(?!$)"` replaced by `' in to '` everywhere:
after `" in in"` a maximal whitespace run is consumed greedily, backing off
one character when the run would end the string (so a run of one final
whitespace fails to match). -/
def doubleIn (fuel : Nat) (t : List Char) : List Char :=
  match fuel, t with
  | 0, t => t
  | _ + 1, [] => []
  | fuel + 1, c :: cs =>
    match c :: cs with
    | ' ' :: 'i' :: 'n' :: ' ' :: 'i' :: 'n' :: rest =>
      let run := rest.takeWhile (isWsC ·)
      let after := rest.drop run.length
      let k := if after.isEmpty then run.length - 1 else run.length
      if k ≥ 1 then
        ' ' :: 'i' :: 'n' :: ' ' :: 't' :: 'o' :: ' ' :: doubleIn fuel (rest.drop k)
      else c :: doubleIn fuel cs
    | _ => c :: doubleIn fuel cs

/-- Attempt the tail of `of_re = "%\s+of\s+"` right after a `%`: whitespace
run, `of`, whitespace run (greedy); returns the text after the match. -/
def ofMatchAt (cs : List Char) : Option (List Char) :=
  let ws1 := cs.takeWhile (isWsC ·)
  if ws1.isEmpty then none
  else
    match cs.dropWhile (isWsC ·) with
    | 'o' :: 'f' :: r2 =>
      let ws2 := r2.takeWhile (isWsC ·)
      if ws2.isEmpty then none else some (r2.dropWhile (isWsC ·))
    | _ => none

/-- First match of `of_re = "%\s+of\s+"`: returns the text before the `%`
and the text after the (greedy) second whitespace run. -/
def ofSearch : List Char → Option (List Char × List Char)
  | [] => none
  | c :: cs =>
    match (if c = '%' then ofMatchAt cs else none) with
    | some post => some ([], post)
    | none => (ofSearch cs).map (fun p => (c :: p.1, p.2))

/-- The percent-of rewrite: `'((' + text[:start] + ')/100)*' + text[end:]`
applied to the first match only. -/
def ofStep (t : List Char) : List Char :=
  match ofSearch t with
  | some (pre, post) => ('(' :: '(' :: pre) ++ (')' :: '/' :: '1' :: '0' :: '0' :: ')' :: '*' :: post)
  | none => t

/-- `percent_re = "%(?!\s*\d)"` replaced by `pct`: each `%` not followed by
optional whitespace and a digit. -/
def percentSub (fuel : Nat) (t : List Char) : List Char :=
  match fuel, t with
  | 0, t => t
  | _ + 1, [] => []
  | fuel + 1, c :: cs =>
    if c = '%' then
      let after := cs.dropWhile (isWsC ·)
      match after.head? with
      | some d => if d.isDigit then '%' :: percentSub fuel cs else 'p' :: 'c' :: 't' :: percentSub fuel cs
      | none => 'p' :: 'c' :: 't' :: percentSub fuel cs
    else c :: percentSub fuel cs

/-! ### The factorial rewrite loop -/

/-- Attempt `factorial_re = "(\d+)\s*!"` at the head of the text: a maximal
digit run, optional whitespace, then `!`. -/
def factMatchAt (cs : List Char) : Option (List Char × List Char × List Char) :=
  let ds := cs.takeWhile (·.isDigit)
  if ds.isEmpty then none
  else
    let r1 := cs.dropWhile (·.isDigit)
    let ws := r1.takeWhile (isWsC ·)
    match r1.dropWhile (isWsC ·) with
    | '!' :: post => some (ds, ws, post)
    | _ => none

/-- Leftmost match of `factorial_re`, as a decomposition
`text = pre ++ digits ++ ws ++ '!' ++ post`. -/
def factSplit : List Char → Option (List Char × List Char × List Char × List Char)
  | [] => none
  | c :: cs =>
    match factMatchAt (c :: cs) with
    | some (ds, ws, post) => some ([], ds, ws, post)
    | none => (factSplit cs).map (fun (pre, ds, ws, post) => (c :: pre, ds, ws, post))

/-- One iteration of the factorial `while` loop:
`text[:start] + f'factorial({digits})' + text[end:]`. -/
def factApply (pre ds post : List Char) : List Char :=
  pre ++ ('f' :: 'a' :: 'c' :: 't' :: 'o' :: 'r' :: 'i' :: 'a' :: 'l' :: '(' :: (ds ++ [')'])) ++ post

def factLoop (fuel : Nat) (t : List Char) : List Char :=
  match fuel with
  | 0 => t
  | fuel + 1 =>
    match factSplit t with
    | none => t
    | some (pre, ds, _, post) => factLoop fuel (factApply pre ds post)

/-! ### Variable/constant substitution (`names_re` with `_replacer`) -/

/-- The lookbehind class `[\w.@)]` of `names_re`. -/
def namesPrev2C (c : Char) : Bool := isWordC c || c = '.' || c = '@' || c = ')'

/-- `_replacer`: `constants.get(name) or vars.get(name)`, replaced by
`f'({repl})'` only when the result is truthy. -/
def replacerLookup (env : VarEnv) (name : String) : Option Value :=
  match pyOr (constGet name) (envGet env name) with
  | some v => if truthy v then some v else none
  | none => none

/-- `names_re.sub(self._replacer, text)`:
`(?<![\w.@)] )\b([a-zA-Z]\w*)\b(?!=| =)` — scan for identifiers starting
with an ASCII letter whose previous character is not a word character,
rejecting a two-character lookbehind of class-char-plus-space and a
lookahead of `=` or ` =`; matched names with a truthy constant/variable are
replaced by the parenthesized rendering of the value. -/
def namesSub (env : VarEnv) (fuel : Nat) (prev2 prev1 : Option Char) (t : List Char) : List Char :=
  match fuel, t with
  | 0, t => t
  | _ + 1, [] => []
  | fuel + 1, c :: cs =>
    let prevWord := match prev1 with | some p => isWordC p | none => false
    let lookbehindBad :=
      (match prev2, prev1 with
       | some p2, some p1 => namesPrev2C p2 && p1 = ' '
       | _, _ => false)
    if c.isAlpha && !prevWord && !lookbehindBad then
      let ident := (c :: cs).takeWhile (isWordC ·)
      let rest := (c :: cs).drop ident.length
      let lookaheadBad :=
        match rest with
        | '=' :: _ => true
        | ' ' :: '=' :: _ => true
        | _ => false
      let lastTwo : Option Char × Option Char :=
        match ident.reverse with
        | l1 :: l2 :: _ => (some l2, some l1)
        | [l1] => (prev1, some l1)
        | [] => (prev2, prev1)
      if lookaheadBad then
        ident ++ namesSub env fuel lastTwo.1 lastTwo.2 rest
      else
        match replacerLookup env (String.mk ident) with
        | some v => ('(' :: (renderValue v).data ++ [')']) ++ namesSub env fuel lastTwo.1 lastTwo.2 rest
        | none => ident ++ namesSub env fuel lastTwo.1 lastTwo.2 rest
    else c :: namesSub env fuel prev1 (some c) cs

/-! ### The money rewrite loops -/

/-- Word-boundary test between two optional characters (Python `\b`). -/
def wordBoundary (a b : Option Char) : Bool :=
  (match a with | some c => isWordC c | none => false) ≠
  (match b with | some c => isWordC c | none => false)

/-- The `\b`-driven backoff of `money_re`: the longest prefix of the
`[0-9.]` run that ends at a word boundary. -/
def moneyBack (run rest : List Char) : Nat → Option (List Char × List Char)
  | 0 => none
  | k + 1 =>
    let kept := run.take (k + 1)
    let dropped := run.drop (k + 1) ++ rest
    if wordBoundary kept.getLast? dropped.head? then some (kept, dropped)
    else moneyBack run rest k

/-- Attempt `money_re = "\$([0-9.]+)\b"` at the head: after `$`, a maximal
run of `[0-9.]`, backing off to the longest prefix that ends at a word
boundary. -/
def moneyMatchAt (cs : List Char) : Option (List Char × List Char) :=
  match cs with
  | '$' :: r1 =>
    let run := r1.takeWhile (fun c => c.isDigit || c = '.')
    if run.isEmpty then none
    else
      moneyBack run (r1.dropWhile (fun c => c.isDigit || c = '.')) run.length
  | _ => none

/-- Leftmost match of `money_re` as a decomposition
`text = pre ++ '$' ++ group ++ post`. -/
def moneySplit : List Char → Option (List Char × List Char × List Char)
  | [] => none
  | c :: cs =>
    match moneyMatchAt (c :: cs) with
    | some (grp, post) => some ([], grp, post)
    | none => (moneySplit cs).map (fun (pre, grp, post) => (c :: pre, grp, post))

def moneyLoop (fuel : Nat) (t : List Char) : List Char :=
  match fuel with
  | 0 => t
  | fuel + 1 =>
    match moneySplit t with
    | none => t
    | some (pre, grp, post) => moneyLoop fuel (pre ++ grp ++ (' ' :: 'U' :: 'S' :: 'D' :: post))

/-- Attempt `money_to_re = " to\s+\$"` at the head; returns the whitespace
run and the text after the `$`. -/
def moneyToMatchAt : List Char → Option (List Char × List Char)
  | ' ' :: 't' :: 'o' :: r1 =>
    let ws := r1.takeWhile (isWsC ·)
    if ws.isEmpty then none
    else
      match r1.dropWhile (isWsC ·) with
      | '$' :: post => some (ws, post)
      | _ => none
  | _ => none

/-- Leftmost match of `money_to_re = " to\s+\$"` as a decomposition
`text = pre ++ " to" ++ ws ++ '$' ++ post`. -/
def moneyToSplit : List Char → Option (List Char × List Char × List Char)
  | [] => none
  | c :: cs =>
    match moneyToMatchAt (c :: cs) with
    | some (ws, post) => some ([], ws, post)
    | none => (moneyToSplit cs).map (fun (pre, ws, post) => (c :: pre, ws, post))

def moneyToLoop (fuel : Nat) (t : List Char) : List Char :=
  match fuel with
  | 0 => t
  | fuel + 1 =>
    match moneyToSplit t with
    | none => t
    | some (pre, _, post) =>
      moneyToLoop fuel (pre ++ (' ' :: 't' :: 'o' :: ' ' :: 'U' :: 'S' :: 'D' :: post))

/-! ### Conversion-keyword sentinel and superscript translation -/

/-- `to_re = "\s+to\s+"` replaced by `' @@@ '` everywhere. -/
def toSub (fuel : Nat) (t : List Char) : List Char :=
  match fuel, t with
  | 0, t => t
  | _ + 1, [] => []
  | fuel + 1, c :: cs =>
    if isWsC c then
      let run := (c :: cs).takeWhile (isWsC ·)
      let after := (c :: cs).drop run.length
      match after with
      | 't' :: 'o' :: r2 =>
        let ws2 := r2.takeWhile (isWsC ·)
        if ws2.isEmpty then run ++ toSub fuel after
        else (' ' :: '@' :: '@' :: '@' :: [' ']) ++ toSub fuel (r2.drop ws2.length)
      | _ => run ++ toSub fuel after
    else c :: toSub fuel cs

/-- `from_specials`: translate Unicode superscript digits and dot/cross
variants to ASCII. -/
def fromSpecials (t : List Char) : List Char :=
  t.map (fun c =>
    if c = '⁰' then '0' else if c = '¹' then '1' else if c = '²' then '2'
    else if c = '³' then '3' else if c = '⁴' then '4' else if c = '⁵' then '5'
    else if c = '⁶' then '6' else if c = '⁷' then '7' else if c = '⁸' then '8'
    else if c = '⁹' then '9' else if c = '⋅' then '*' else if c = '·' then '*'
    else if c = '×' then '*' else c)

/-! ### The unit-literal scan (`unit_re`) -/

/-- Decimal digit characters for the placeholder indices. -/
def myDigitChar (d : Nat) : Char :=
  match d % 10 with
  | 0 => '0' | 1 => '1' | 2 => '2' | 3 => '3' | 4 => '4'
  | 5 => '5' | 6 => '6' | 7 => '7' | 8 => '8' | _ => '9'

def natDigitsGo (fuel n : Nat) (acc : List Char) : List Char :=
  match fuel with
  | 0 => acc
  | fuel + 1 => if n = 0 then acc else natDigitsGo fuel (n / 10) (myDigitChar (n % 10) :: acc)

/-- Decimal rendering of a natural number (for `f'@@{unit_idx}@@'`). -/
def natDigits (n : Nat) : List Char :=
  if n = 0 then ['0'] else natDigitsGo n n []

/-- Candidates for the optional `num_re` prefix of `unit_re`, in the regex's
backtracking preference order (each candidate is the consumed prefix).  The
`\b` before the digit alternatives means no candidate exists when the
preceding character is a word character. -/
def numCandsAt (prevC : Option Char) (cs : List Char) : List (List Char) :=
  let prevWord := match prevC with | some p => isWordC p | none => false
  if prevWord then []
  else
    match cs with
    | '.' :: r1 =>
      -- first alternative: [.]\b\d+([Ee][+-]?\d*)?\b
      let ds := r1.takeWhile (·.isDigit)
      if ds.isEmpty then []
      else
        let core := '.' :: ds
        let r2 := r1.drop ds.length
        let expPart :=
          match r2 with
          | e :: r3 =>
            if e = 'e' || e = 'E' then
              let sr : List Char × List Char :=
                match r3 with
                | '+' :: r => (['+'], r)
                | '-' :: r => (['-'], r)
                | r => ([], r)
              let eds := sr.2.takeWhile (fun c : Char => c.isDigit)
              some (e :: sr.1 ++ eds, sr.2.drop eds.length)
            else none
          | [] => none
        let withExp :=
          match expPart with
          | some (ec, rest') =>
            if wordBoundary (core ++ ec).getLast? rest'.head? then [core ++ ec] else []
          | none => []
        let bare := if wordBoundary core.getLast? r2.head? then [core] else []
        withExp ++ bare
    | [] => []
    | c :: _ =>
      if c.isDigit then
        -- second alternative: \b\d+([.,]?\d+)?([Ee][+-]?\d*)?
        let ds := cs.takeWhile (·.isDigit)
        let r1 := cs.drop ds.length
        let fr : List Char × List Char :=
          match r1 with
          | sep :: r =>
            if sep = '.' || sep = ',' then
              let fds := r.takeWhile (·.isDigit)
              if fds.isEmpty then ([], r1) else (sep :: fds, r.drop fds.length)
            else ([], r1)
          | [] => ([], r1)
        let base := ds ++ fr.1
        let r2 := fr.2
        let expPart :=
          match r2 with
          | e :: r3 =>
            if e = 'e' || e = 'E' then
              let sr : List Char × List Char :=
                match r3 with
                | '+' :: r => (['+'], r)
                | '-' :: r => (['-'], r)
                | r => ([], r)
              let eds := sr.2.takeWhile (·.isDigit)
              some (e :: sr.1 ++ eds)
            else none
          | [] => none
        match expPart with
        | some ec => [base ++ ec, base]
        | none => [base]
      else []

/-- Greedy exponent repetitions `((\^|\*\*)?[0-9]+)*` of the unit block. -/
def expRepsGreedy (fuel : Nat) (cs : List Char) : List Char :=
  match fuel with
  | 0 => []
  | fuel + 1 =>
    match cs with
    | '^' :: r =>
      let ds := r.takeWhile (·.isDigit)
      if ds.isEmpty then [] else ('^' :: ds) ++ expRepsGreedy fuel (r.dropWhile (·.isDigit))
    | '*' :: '*' :: r =>
      let ds := r.takeWhile (·.isDigit)
      if ds.isEmpty then [] else ('*' :: '*' :: ds) ++ expRepsGreedy fuel (r.dropWhile (·.isDigit))
    | c :: _ =>
      if c.isDigit then
        let ds := cs.takeWhile (·.isDigit)
        ds ++ expRepsGreedy fuel (cs.dropWhile (·.isDigit))
      else []
    | [] => []

/-- Boundary-and-lookahead tail check of `unit_re`:
`(?:\b|$|(?=\)))(?!\s*[=])` (the block always ends in a word character). -/
def unitTailOk (rest : List Char) : Bool :=
  (match rest.head? with
   | none => true
   | some c => !isWordC c || c = ')') &&
  (match (rest.dropWhile (isWsC ·)).head? with
   | some '=' => false
   | _ => true)

/-- One attempt of the unit block's tail with a fixed letter prefix `kept`:
the `(?![(])` check, the greedy exponent repetitions (backing off to none),
and the boundary/lookahead tail checks. -/
def unitBlockTry (kept afterLetters : List Char) : Option (List Char × List Char) :=
  if afterLetters.head? = some '(' then none
  else
    let eGreedy := expRepsGreedy afterLetters.length afterLetters
    if unitTailOk (afterLetters.drop eGreedy.length) then
      some (kept ++ eGreedy, afterLetters.drop eGreedy.length)
    else if eGreedy.isEmpty then none
    else if unitTailOk afterLetters then some (kept, afterLetters)
    else none

/-- Try the unit block `[a-zA-Z_Ωμ°]+(?![(])((\^|\*\*)?[0-9]+)*` plus tail
checks with `k` letters (backtracking `k` downward). -/
def unitBlockK (letters : List Char) (afterLetters0 : List Char) : Nat → Option (List Char × List Char)
  | 0 => none
  | k + 1 =>
    match unitBlockTry (letters.take (k + 1)) (letters.drop (k + 1) ++ afterLetters0) with
    | some r => some r
    | none => unitBlockK letters afterLetters0 k

def unitBlockAt (cs : List Char) : Option (List Char × List Char) :=
  let letters := cs.takeWhile (isUnitLetterC ·)
  if letters.isEmpty then none
  else unitBlockK letters (cs.dropWhile (isUnitLetterC ·)) letters.length

/-- Try the `num_re` candidates in preference order, falling back to the
unmatched-optional-group case (`\s*` then the unit block).  Candidates are
prefixes of `cs` by construction; the `isPrefixOf` check makes that
explicit. -/
def unitTryCands (cs : List Char) :
    List (List Char) → Option (Option (List Char) × List Char × List Char × List Char)
  | [] =>
    let ws := cs.takeWhile (isWsC ·)
    let afterWs := cs.dropWhile (isWsC ·)
    (match unitBlockAt afterWs with
     | some (block, rest) => some (none, block, ws ++ block, rest)
     | none => none)
  | nc :: more =>
    if nc.isPrefixOf cs then
      let afterNum := cs.drop nc.length
      let ws := afterNum.takeWhile (isWsC ·)
      let afterWs := afterNum.dropWhile (isWsC ·)
      (match unitBlockAt afterWs with
       | some (block, rest) => some (some nc, block, nc ++ ws ++ block, rest)
       | none => unitTryCands cs more)
    else unitTryCands cs more

/-- Attempt `unit_re` at the current position, given the previous character
and whether the six preceding characters are `Unit('` (the two negative
lookbehinds).  Returns (optional number text, unit string, consumed span,
rest). -/
def unitMatchAt (prevC : Option Char) (pre6bad : Bool) (cs : List Char) :
    Option (Option (List Char) × List Char × List Char × List Char) :=
  let prevLetter := match prevC with | some p => p.isAlpha | none => false
  if prevLetter || pre6bad then none
  else unitTryCands cs (numCandsAt prevC cs)

/-- Leftmost match of `unit_re`: scan positions left to right, tracking the
reversed prefix for the lookbehinds. -/
def unitSearchAux (preRev : List Char) :
    List Char → Option (List Char × Option (List Char) × List Char × List Char)
  | [] => none
  | c :: cs =>
    let pre6bad := decide (preRev.take 6 = ['\'', '(', 't', 'i', 'n', 'U'])
    match unitMatchAt preRev.head? pre6bad (c :: cs) with
    | some (numOpt, block, _, rest) => some (preRev.reverse, numOpt, block, rest)
    | none => unitSearchAux (c :: preRev) cs

def unitSearch (t : List Char) :
    Option (List Char × Option (List Char) × List Char × List Char) :=
  unitSearchAux [] t

/-- The replacement text recorded for one unit-literal match: a
`complex(0,{float(numstr)})` literal for the imaginary units `i`/`j`,
otherwise `Unit('{numstr} {unitstr}')`.  `float(numstr)` can raise
(e.g. a comma-grouped number), aborting the line. -/
def unitReplacement (numOpt : Option (List Char)) (block : List Char) :
    Except Err (List Char) :=
  let numstr := numOpt.getD ['1']
  if block = ['i'] || block = ['j'] then
    match readNum numstr with
    | some (q, []) => .ok (('c' :: 'o' :: 'm' :: 'p' :: 'l' :: 'e' :: 'x' :: '(' :: '0' :: ',' :: []) ++ (renderPyFloat q).data ++ [')'])
    | _ => .error .valueError
  else
    .ok (('U' :: 'n' :: 'i' :: 't' :: '(' :: '\'' :: []) ++ numstr ++ [' '] ++ block ++ ['\'', ')'])

/-- The unit-literal `while` loop: replace each match with an indexed
placeholder `@@k@@`, recording the constructor text for after-the-loop
substitution. -/
def unitLoop (fuel idx : Nat) (t : List Char) (acc : List (List Char × List Char)) :
    Except Err (List Char × List (List Char × List Char)) :=
  match fuel with
  | 0 => .ok (t, acc)
  | fuel + 1 =>
    match unitSearch t with
    | none => .ok (t, acc)
    | some (pre, numOpt, block, rest) => do
      let rep ← unitReplacement numOpt block
      let ph := ('@' :: '@' :: natDigits idx) ++ ['@', '@']
      unitLoop fuel (idx + 1) (pre ++ ph ++ rest) (acc ++ [(ph, rep)])

/-- `str.replace(pat, rep)`: replace all occurrences, left to right. -/
def replaceSub (fuel : Nat) (pat rep : List Char) (t : List Char) : List Char :=
  match fuel, t with
  | 0, t => t
  | _ + 1, [] => []
  | fuel + 1, c :: cs =>
    if pat ≠ [] && pat.isPrefixOf (c :: cs) then
      rep ++ replaceSub fuel pat rep ((c :: cs).drop pat.length)
    else c :: replaceSub fuel pat rep cs

/-! ### The assembled preprocessor and the per-line pipeline -/

/-- `BeeParser.parse`'s rewrite pipeline, in source order.  The
repeat-until-no-match loops run with their termination measure plus one as
fuel (claim C9 proves this reaches the no-match fixpoint); the scanning
substitutions consume at least one character per step, so length-plus-one
fuel is exact.  Only the imaginary-literal `float(numstr)` conversion can
fail. -/
def preprocess (env : VarEnv) (text : List Char) : Except Err (List Char) := do
  let t := caretToPow (stripWs text)
  let t := extraSpaces t
  let t := elimSpaces none t
  let t := stripComment t
  let t := atToAns t
  let t := doubleIn (t.length + 1) t
  let t := ofStep t
  let t := percentSub (t.length + 1) t
  let t := factLoop (t.count '!' + 1) t
  let t := namesSub env (t.length + 1) none none t
  let t := moneyLoop (t.count '$' + 1) t
  let t := moneyToLoop (t.count '$' + 1) t
  let t := toSub (t.length + 1) t
  let t := fromSpecials t
  let (t, reps) ← unitLoop (unitLetterCount t + 1) 1 t []
  let t := reps.foldl (fun tt pr => replaceSub (tt.length + 1) pr.1 pr.2 tt) t
  let t := replaceSub (t.length + 1) ['@', '@', '@'] ['i', 'n', ' '] t
  let t := replaceSub (t.length + 1)
    [')', 'U', 'n', 'i', 't', '(', '\'']
    [')', '*', 'U', 'n', 'i', 't', '(', '\''] t
  pure t

/-- Preprocess a line and parse it into its module statement list. -/
def lineStmts (env : VarEnv) (text : String) : Except Err (List Stmt) := do
  let t ← preprocess env text.data
  parseModule t

/-- One line through Preprocessor → `ast.parse` → evaluator
(`BeeParser.parse`).  On an error, the returned environment reflects any
assignments already executed before the error was raised. -/
def evalLine (cfg : Cfg) (env : VarEnv) (text : String) : Except Err Value × VarEnv :=
  match lineStmts env text with
  | .error e => (.error e, env)
  | .ok stmts => evalStmtsGo cfg env [] stmts

/-! ## The notebook (`BeeNotepad`)

`__init__` stores `self._vars = self.parser.vars` — a second reference to
the parser's dict.  `clear` rebinds `self.parser.vars` to a fresh dict but
leaves `self._vars` pointing at the old one, so the two references diverge
after the first `clear`.  The model keeps both dicts (`vars` is
`self.parser.vars`, `origVars` is the dict `self._vars` points to) plus the
flag `aliased` recording whether they are still the same object; writes
through either reference are applied to both while aliased. -/

structure Pad where
  input : List String
  output : List Value
  vars : VarEnv
  origVars : VarEnv
  aliased : Bool

def padInit : Pad := ⟨[], [], [], [], true⟩

/-- The notebook state after a successful `append`: a truthy result is
recorded in the history; `self._vars['ans'] = out` lands in the parser's
dict too exactly when the two references are still aliased. -/
def padRecord (st : Pad) (text : String) (out : Value) (env' : VarEnv) : Pad :=
  { input := if truthy out then st.input ++ [text] else st.input,
    output := if truthy out then st.output ++ [out] else st.output,
    vars := if st.aliased then envSet env' "ans" out else env',
    origVars := if st.aliased then envSet env' "ans" out else envSet st.origVars "ans" out,
    aliased := st.aliased }

/-- `BeeNotepad.append`: parse/evaluate the line; when the result is truthy
it is recorded in the `input`/`output` history; `self._vars['ans'] = out`
runs unconditionally on success (on an exception it is never reached). -/
def padAppend (cfg : Cfg) (st : Pad) (text : String) : Pad × Except Err Value :=
  match evalLine cfg st.vars text with
  | (.error e, env') =>
    ({ st with vars := env', origVars := if st.aliased then env' else st.origVars }, .error e)
  | (.ok out, env') => (padRecord st text out env', .ok out)

/-- `BeeNotepad.clear`: empties the history and rebinds `self.parser.vars`
to a fresh dict; `self._vars` keeps pointing to the old dict. -/
def padClear (st : Pad) : Pad :=
  { input := [], output := [], vars := [],
    origVars := if st.aliased then st.vars else st.origVars, aliased := false }

/-- A notebook session script: appends and clears. -/
inductive PadOp where
  | app (line : String)
  | clr

/-- One script step. -/
def padStep (cfg : Cfg) (acc : Pad × List (Except Err Value)) (op : PadOp) :
    Pad × List (Except Err Value) :=
  match op with
  | .app line =>
    let (st', r) := padAppend cfg acc.1 line
    (st', acc.2 ++ [r])
  | .clr => (padClear acc.1, acc.2)

/-- Run a script, collecting each append's result. -/
def padRun (cfg : Cfg) (ops : List PadOp) : Pad × List (Except Err Value) :=
  ops.foldl (padStep cfg) (padInit, [])

/-! ## The caller's zero-snap (`MainWindow.processNotepad`, beecalc.py)

`if (not isinstance(out, complex)) and math.isclose(out, 0, abs_tol=1e-15):
out = 0` — applied by the GUI to each non-empty result before display;
`math.isclose(x, 0, abs_tol=1e-15)` is `|x| ≤ 1e-15` (the relative term is
vacuous against zero), and a quantity coerces to its magnitude. -/

def epsSnap : Q := mkQ 1 (10 ^ 15)

def snapZero (v : Value) : Value :=
  match v with
  | .cplx _ _ => v
  | .num q => if qLe (qAbs q) epsSnap then .num (qOfInt 0) else v
  | .unitV m _ => if qLe (qAbs m) epsSnap then .num (qOfInt 0) else v
  | v => v

/-! ## Helper lemmas -/

theorem envGet_envSet_self (env : VarEnv) (k : String) (v : Value) :
    envGet (envSet env k v) k = some v := by
  induction env with
  | nil => simp [envSet, envGet]
  | cons kv rest ih =>
    obtain ⟨k', v'⟩ := kv
    by_cases h : k' = k
    · simp [envSet, envGet, h]
    · simp [envSet, envGet, h, ih]

theorem envGet_envSet_ne (env : VarEnv) (k x : String) (v : Value) (h : x ≠ k) :
    envGet (envSet env k v) x = envGet env x := by
  have hkx : ¬ k = x := fun hh => h hh.symm
  induction env with
  | nil => simp [envSet, envGet, hkx]
  | cons kv rest ih =>
    obtain ⟨k', v'⟩ := kv
    by_cases hk : k' = k
    · subst hk
      simp [envSet, envGet, hkx]
    · simp only [envSet, hk, if_false]
      by_cases hx : k' = x
      · simp [envGet, hx]
      · simp [envGet, hx, ih]

/-! ## Claim theorems -/

/-- C2: the claim says that after `clear` a fresh sequence of lines behaves
exactly as in a fresh notebook.  The code violates it: `clear` rebinds
`self.parser.vars` but `append` keeps writing `ans` through the stale
`self._vars` alias, so `@`/`ans` references after a clear fail with an
unavailable-unit error where a fresh notebook yields the previous result
plus one.  This theorem evaluates both runs of the failing input. -/
theorem clear_stale_ans_alias :
    (padRun defaultCfg [.clr, .app "2+3", .app "@+1"]).2 =
      [.ok (.num ⟨5, 1⟩), .error (.unavailableUnit "ans")] ∧
    (padRun defaultCfg [.app "2+3", .app "@+1"]).2 =
      [.ok (.num ⟨5, 1⟩), .ok (.num ⟨6, 1⟩)] ∧
    envGet (padRun defaultCfg [.clr, .app "2+3", .app "@+1"]).1.vars "ans" = none ∧
    envGet (padRun defaultCfg [.clr, .app "2+3", .app "@+1"]).1.origVars "ans" =
      some (.num ⟨5, 1⟩) :=
  ⟨rfl, rfl, rfl, rfl⟩

/-- C3: constants take precedence over same-named user variables.  The
preprocessor's `_replacer` looks up `constants.get(name) or vars.get(name)`,
so a truthy constant shadows any variable binding; `["pi=3","pi*2"]` yields
`3` and then `2·pi` (the float constant), not `6`. -/
theorem constant_precedence :
    (∀ env v, replacerLookup (envSet env "pi" v) "pi" = some (.num piQ)) ∧
    (padRun defaultCfg [.app "pi=3", .app "pi*2"]).2 =
      [.ok (.num ⟨3, 1⟩), .ok (.num (qMul piQ (qOfInt 2)))] ∧
    qMul piQ (qOfInt 2) ≠ qOfInt 6 :=
  ⟨fun _ _ => rfl, rfl, by decide⟩

/-- C10: a variable bound to exactly `0` cannot be referenced: both
`_replacer` and the evaluator's name branch gate on the truthiness of the
stored value, so after `a=0` the line `a+1` is not substituted, the
identifier falls through to unit interpretation (`Unit('1 a')`), and the
line fails with an unavailable-unit error instead of yielding `1`. -/
theorem zero_variable_unreferencable :
    (∀ env, envGet env "a" = some (.num (qOfInt 0)) → replacerLookup env "a" = none) ∧
    (∀ env, envGet env "a" = some (.num (qOfInt 0)) →
      evalName env "a" = .error (.badNameOrConst "a")) ∧
    (padRun defaultCfg [.app "a=0", .app "a+1"]).2 =
      [.ok (.num (qOfInt 0)), .error (.unavailableUnit "a")] ∧
    (Except.error (Err.unavailableUnit "a") : Except Err Value) ≠ .ok (.num (qOfInt 1)) := by
  refine ⟨?_, ?_, rfl, fun h => Except.noConfusion h⟩
  · intro env h
    simp [replacerLookup, pyOr, constGet, h, truthy, qOfInt]
  · intro env h
    simp [evalName, pyAny2, constGet, h, truthy, qOfInt, unitFromString, unitOfName,
      unitLookup, unitTable]

/-- C10 witness: the gating lemmas applied at the concrete environment
`{a ↦ 0}`. -/
theorem zero_variable_unreferencable_witness :
    replacerLookup [("a", .num (qOfInt 0))] "a" = none ∧
    evalName [("a", .num (qOfInt 0))] "a" = .error (.badNameOrConst "a") :=
  ⟨zero_variable_unreferencable.1 [("a", .num (qOfInt 0))] rfl,
   zero_variable_unreferencable.2.1 [("a", .num (qOfInt 0))] rfl⟩

/-- C8: the claim says the evaluation pipeline snaps tiny results to zero;
in the code the pipeline returns the raw value — `1/10**20` comes back as
exactly `10⁻²⁰`, non-zero yet far below the `1e-15` epsilon. -/
theorem zero_snap_not_in_pipeline :
    (evalLine defaultCfg [] "1/10**20").1 = .ok (.num (mkQ 1 (10 ^ 20))) ∧
    mkQ 1 (10 ^ 20) ≠ qOfInt 0 ∧
    qLe (qAbs (mkQ 1 (10 ^ 20))) epsSnap = true :=
  ⟨rfl, by decide, by decide⟩

/-- C8 (amended): the zero-snap lives in the GUI caller
(`MainWindow.processNotepad`), which replaces any non-complex result whose
float magnitude is within `1e-15` of zero by the integer `0` before
display; complex results are never snapped, and the pipeline itself returns
the unsnapped value. -/
theorem zero_snap_in_caller :
    (∀ q, qLe (qAbs q) epsSnap = true → snapZero (.num q) = .num (qOfInt 0)) ∧
    (∀ m u, qLe (qAbs m) epsSnap = true → snapZero (.unitV m u) = .num (qOfInt 0)) ∧
    (∀ re im, snapZero (.cplx re im) = .cplx re im) ∧
    (∀ q, qLe (qAbs q) epsSnap = false → snapZero (.num q) = .num q) ∧
    (evalLine defaultCfg [] "1/10**20").1 = .ok (.num (mkQ 1 (10 ^ 20))) := by
  refine ⟨?_, ?_, fun _ _ => rfl, ?_, rfl⟩
  · intro q h
    simp [snapZero, h, qOfInt]
  · intro m u h
    simp [snapZero, h, qOfInt]
  · intro q h
    simp [snapZero, h]

/-- C8 witness: the snap applied to the pipeline's tiny raw result. -/
theorem zero_snap_in_caller_witness :
    snapZero (.num (mkQ 1 (10 ^ 20))) = .num (qOfInt 0) :=
  zero_snap_in_caller.1 (mkQ 1 (10 ^ 20)) (by decide)

/-- Case split on `append`: the line either raises (state keeps the history,
takes the possibly-mutated environment, and skips the `ans` write) or
returns a value recorded via `padRecord`. -/
theorem padAppend_cases (cfg : Cfg) (st : Pad) (text : String) :
    (∃ e env', evalLine cfg st.vars text = (.error e, env') ∧
       padAppend cfg st text =
         ({ st with vars := env', origVars := if st.aliased then env' else st.origVars },
          .error e)) ∨
    (∃ out env', evalLine cfg st.vars text = (.ok out, env') ∧
       padAppend cfg st text = (padRecord st text out env', .ok out)) := by
  unfold padAppend
  rcases evalLine cfg st.vars text with ⟨r, env'⟩
  cases r
  · left
    exact ⟨_, _, rfl, rfl⟩
  · right
    exact ⟨_, _, rfl, rfl⟩

/-- C1: the claim says blank/comment-only lines leave `ans` unchanged; but
`append` runs `self._vars['ans'] = out` unconditionally, so a blank line
overwrites `ans` with the Empty result.  Here, after `2+3` sets `ans = 5`,
appending the empty line sets `ans` to Empty. -/
theorem ans_counterexample :
    (padAppend defaultCfg padInit "2+3").2 = .ok (.num ⟨5, 1⟩) ∧
    envGet (padAppend defaultCfg padInit "2+3").1.vars "ans" = some (.num ⟨5, 1⟩) ∧
    (padAppend defaultCfg (padAppend defaultCfg padInit "2+3").1 "").2 = .ok (.listV []) ∧
    envGet (padAppend defaultCfg (padAppend defaultCfg padInit "2+3").1 "").1.vars "ans" =
      some (.listV []) ∧
    Value.listV [] ≠ Value.num ⟨5, 1⟩ :=
  ⟨rfl, rfl, rfl, rfl, fun h => Value.noConfusion h⟩

/-- C1 (amended): while the notebook's `_vars` alias still is the parser's
dict (before any clear), every successful append sets `ans` to the line's
result — including the Empty result of a blank or comment-only line, which
therefore overwrites `ans`; such a line changes no other variable and adds
no history entry; and `["2+3","@+1"]` yields `5` then `6`. -/
theorem ans_assignment :
    (∀ cfg st text st' out, padAppend cfg st text = (st', .ok out) → st.aliased = true →
      envGet st'.vars "ans" = some out) ∧
    (∀ cfg st text st' r, padAppend cfg st text = (st', r) →
      lineStmts st.vars text = .ok [] → st.aliased = true →
      r = .ok (.listV []) ∧ envGet st'.vars "ans" = some (.listV []) ∧
      (∀ x, x ≠ "ans" → envGet st'.vars x = envGet st.vars x) ∧
      st'.input = st.input ∧ st'.output = st.output) ∧
    (padRun defaultCfg [.app "2+3", .app "@+1"]).2 =
      [.ok (.num ⟨5, 1⟩), .ok (.num ⟨6, 1⟩)] := by
  refine ⟨?_, ?_, rfl⟩
  · intro cfg st text st' out h ha
    rcases padAppend_cases cfg st text with ⟨e, env', hev, hp⟩ | ⟨o, env', hev, hp⟩
    · rw [hp] at h
      exact absurd (congrArg Prod.snd h) (by simp)
    · rw [hp] at h
      have h1 : padRecord st text o env' = st' := congrArg Prod.fst h
      have h3 : o = out := Except.ok.inj (congrArg Prod.snd h)
      clear h hp hev
      subst h3
      rw [← h1]
      simp only [padRecord, ha, if_true]
      exact envGet_envSet_self ..
  · intro cfg st text st' r h hs ha
    have hev : evalLine cfg st.vars text = (.ok (.listV []), st.vars) := by
      unfold evalLine
      rw [hs]
      rfl
    rcases padAppend_cases cfg st text with ⟨e, env', hev', hp⟩ | ⟨o, env', hev', hp⟩
    · rw [hev] at hev'
      exact absurd (congrArg Prod.fst hev') (by simp)
    · rw [hev] at hev'
      have ho : Value.listV [] = o := Except.ok.inj (congrArg Prod.fst hev')
      have henv : st.vars = env' := congrArg Prod.snd hev'
      rw [hp] at h
      have h1 : padRecord st text o env' = st' := congrArg Prod.fst h
      have h2 : (Except.ok o : Except Err Value) = r := congrArg Prod.snd h
      clear h hp hev hev'
      subst ho
      subst henv
      refine ⟨h2.symm, ?_, ?_, ?_, ?_⟩
      · rw [← h1]
        simp only [padRecord, ha, if_true]
        exact envGet_envSet_self ..
      · intro x hx
        rw [← h1]
        simp only [padRecord, ha, if_true]
        exact envGet_envSet_ne _ _ _ _ hx
      · rw [← h1]
        simp [padRecord, truthy]
      · rw [← h1]
        simp [padRecord, truthy]

set_option maxHeartbeats 2000000 in
/-- C1 witness: the amended statement applied at a concrete notebook: after
`2+3` the variable `ans` is `5`; appending a blank line yields Empty and
sets `ans` to Empty. -/
theorem ans_assignment_witness :
    envGet (padAppend defaultCfg padInit "2+3").1.vars "ans" = some (.num ⟨5, 1⟩) ∧
    envGet (padAppend defaultCfg (padAppend defaultCfg padInit "2+3").1 "").1.vars "ans" =
      some (.listV []) :=
  ⟨ans_assignment.1 defaultCfg padInit "2+3" _ _ rfl rfl,
   (ans_assignment.2.1 defaultCfg (padAppend defaultCfg padInit "2+3").1 "" _ _ rfl rfl
      rfl).2.1⟩

/-- First character is whitespace. -/
def wsHead (l : List Char) : Bool :=
  match l.head? with
  | some c => isWsC c
  | none => false

theorem dropWhile_of_wsHead_false {post : List Char} (hw : wsHead post = false) :
    post.dropWhile (isWsC ·) = post := by
  cases post with
  | nil => rfl
  | cons c cs =>
    simp only [wsHead, List.head?] at hw
    simp [List.dropWhile_cons, hw]

theorem takeWhile_of_wsHead_false {post : List Char} (hw : wsHead post = false) :
    post.takeWhile (isWsC ·) = [] := by
  cases post with
  | nil => rfl
  | cons c cs =>
    simp only [wsHead, List.head?] at hw
    simp [List.takeWhile_cons, hw]

theorem ofMatchAt_head (post : List Char) (hw : wsHead post = false) :
    ofMatchAt (' ' :: 'o' :: 'f' :: ' ' :: post) = some post := by
  have h1 : (' ' :: 'o' :: 'f' :: ' ' :: post).takeWhile (isWsC ·) = [' '] := by
    simp [List.takeWhile_cons, isWsC]
  have h2 : (' ' :: 'o' :: 'f' :: ' ' :: post).dropWhile (isWsC ·) =
      'o' :: 'f' :: ' ' :: post := by
    simp [List.dropWhile_cons, isWsC]
  have h3 : (' ' :: post).takeWhile (isWsC ·) = ' ' :: post.takeWhile (isWsC ·) := by
    simp [List.takeWhile_cons, isWsC]
  have h4 : (' ' :: post).dropWhile (isWsC ·) = post.dropWhile (isWsC ·) := by
    simp [List.dropWhile_cons, isWsC]
  unfold ofMatchAt
  rw [h1, h2]
  simp only [List.isEmpty_cons, h3, h4, dropWhile_of_wsHead_false hw]
  rfl

theorem ofSearch_append (pre post : List Char) (hp : pre.contains '%' = false)
    (hw : wsHead post = false) :
    ofSearch (pre ++ '%' :: ' ' :: 'o' :: 'f' :: ' ' :: post) = some (pre, post) := by
  induction pre with
  | nil =>
    show ofSearch ('%' :: ' ' :: 'o' :: 'f' :: ' ' :: post) = some ([], post)
    rw [ofSearch, if_pos rfl, ofMatchAt_head post hw]
  | cons c cs ih =>
    simp only [List.contains_cons, Bool.or_eq_false_iff] at hp
    obtain ⟨hc, hcs⟩ := hp
    have hcne : ¬ c = '%' := by
      intro hh
      rw [hh] at hc
      simp at hc
    show ofSearch (c :: (cs ++ '%' :: ' ' :: 'o' :: 'f' :: ' ' :: post)) = some (c :: cs, post)
    rw [ofSearch, if_neg hcne, ih hcs]
    rfl

/-- C6: the percent-of rewrite.  The first `%`-whitespace-`of`-whitespace
occurrence is rewritten to `(( <prefix> )/100)* <suffix>` (exactly
`'((' + text[:start] + ')/100)*' + text[end:]`), and it runs before the
generic percent-unit step, so `"50 % of 8"` yields `4` and `"20% of 100"`
yields `20`. -/
theorem percent_of_rewrite :
    (∀ pre post, pre.contains '%' = false → wsHead post = false →
      ofStep (pre ++ '%' :: ' ' :: 'o' :: 'f' :: ' ' :: post) =
        '(' :: '(' :: pre ++ ')' :: '/' :: '1' :: '0' :: '0' :: ')' :: '*' :: post) ∧
    preprocess [] "20% of 100".data = .ok "((20)/100)*100".data ∧
    (evalLine defaultCfg [] "50 % of 8").1 = .ok (.num ⟨4, 1⟩) ∧
    (evalLine defaultCfg [] "20% of 100").1 = .ok (.num ⟨20, 1⟩) := by
  refine ⟨?_, rfl, rfl, rfl⟩
  intro pre post hp hw
  unfold ofStep
  rw [ofSearch_append pre post hp hw]

/-- C6 witness: the rewrite lemma applied at `pre = "50 "`, `post = "8"`. -/
theorem percent_of_rewrite_witness :
    ofStep ("50 ".data ++ '%' :: ' ' :: 'o' :: 'f' :: ' ' :: "8".data) =
      '(' :: '(' :: "50 ".data ++ ')' :: '/' :: '1' :: '0' :: '0' :: ')' :: '*' :: "8".data :=
  percent_of_rewrite.1 "50 ".data "8".data (by decide) (by decide)

/-- Sine is 1-Lipschitz (via the product formula for `sin a - sin b`). -/
theorem sin_lipschitz_bound (a b : ℝ) : |Real.sin a - Real.sin b| ≤ |a - b| := by
  rw [Real.sin_sub_sin]
  have h1 : |Real.sin ((a - b) / 2)| ≤ |(a - b) / 2| := Real.abs_sin_le_abs
  have h2 : |Real.cos ((a + b) / 2)| ≤ 1 := Real.abs_cos_le_one _
  have h3 : |2 * Real.sin ((a - b) / 2) * Real.cos ((a + b) / 2)| =
      2 * |Real.sin ((a - b) / 2)| * |Real.cos ((a + b) / 2)| := by
    rw [abs_mul, abs_mul]
    norm_num
  rw [h3]
  have h4 : |a - b| = 2 * |(a - b) / 2| := by
    rw [abs_div]
    norm_num
    ring
  rw [h4]
  nlinarith [abs_nonneg (Real.sin ((a - b) / 2)), abs_nonneg ((a - b) / 2)]

/-- The idealized `sin(pi/2)` argument is within `10⁻¹⁵` of the point where
real sine is `1`. -/
theorem sin_piF_half_bound :
    |Real.sin (qToR (qDiv piQ (qOfInt 2))) - 1| ≤ 1 / 10 ^ 15 := by
  have hq : qDiv piQ (qOfInt 2) = ⟨3141592653589793, 2000000000000000⟩ := by decide
  rw [hq]
  have hx : qToR ⟨3141592653589793, 2000000000000000⟩ =
      (3141592653589793 : ℝ) / 2000000000000000 := by
    unfold qToR
    norm_num
  rw [hx]
  have hpi1 := Real.pi_gt_d20
  have hpi2 := Real.pi_lt_d20
  have h1 : |Real.sin ((3141592653589793 : ℝ) / 2000000000000000) - 1| ≤
      |(3141592653589793 : ℝ) / 2000000000000000 - Real.pi / 2| := by
    have h := sin_lipschitz_bound ((3141592653589793 : ℝ) / 2000000000000000) (Real.pi / 2)
    rwa [Real.sin_pi_div_two] at h
  refine le_trans h1 ?_
  rw [abs_le]
  norm_num at hpi1 hpi2 ⊢
  constructor
  · linarith
  · linarith

set_option maxHeartbeats 4000000 in
/-- C7: the designated angle functions convert a quantity argument to
radians before the native call (`args[0] = args[0].to('rad')`) and leave
plain numbers untouched; consequently `sin(90deg)` and `sin(pi/2)` hand the
same radian value `pi/2` to the sine implementation — for every
implementation — and the real sine of that value is `1` to within
`10⁻¹⁵`. -/
theorem angle_radian_conversion :
    (∀ m rest, angleAdjust "sin" (Value.unitV m [("deg", 1)] :: rest) =
        .ok (Value.unitV (qMul m (qDiv piQ (qOfInt 180))) [("rad", 1)] :: rest)) ∧
    (∀ q rest, angleAdjust "sin" (Value.num q :: rest) = .ok (Value.num q :: rest)) ∧
    (∀ cfg : Cfg,
        (evalLine cfg [] "sin(90deg)").1 = .ok (.num (cfg.sinF (qDiv piQ (qOfInt 2)))) ∧
        (evalLine cfg [] "sin(pi/2)").1 = .ok (.num (cfg.sinF (qDiv piQ (qOfInt 2))))) ∧
    |Real.sin (qToR (qDiv piQ (qOfInt 2))) - 1| ≤ 1 / 10 ^ 15 :=
  ⟨fun _ _ => rfl, fun _ _ => rfl, fun _ => ⟨rfl, rfl⟩, sin_piF_half_bound⟩

theorem padAppend_error_hist (cfg : Cfg) (st : Pad) (text : String) (st' : Pad) (e : Err)
    (h : padAppend cfg st text = (st', .error e)) :
    st'.input = st.input ∧ st'.output = st.output := by
  rcases padAppend_cases cfg st text with ⟨e0, env', _, hp⟩ | ⟨out, env', _, hp⟩
  · rw [hp] at h
    obtain ⟨h1, -⟩ := Prod.mk.inj h
    rw [← h1]
    exact ⟨rfl, rfl⟩
  · rw [hp] at h
    exact absurd (congrArg Prod.snd h) (by simp)

theorem padAppend_ok_hist (cfg : Cfg) (st : Pad) (text : String) (st' : Pad) (out : Value)
    (h : padAppend cfg st text = (st', .ok out)) :
    (truthy out = true → st'.input = st.input ++ [text] ∧ st'.output = st.output ++ [out]) ∧
    (truthy out = false → st'.input = st.input ∧ st'.output = st.output) := by
  rcases padAppend_cases cfg st text with ⟨e0, env', _, hp⟩ | ⟨o, env', _, hp⟩
  · rw [hp] at h
    exact absurd (congrArg Prod.snd h) (by simp)
  · rw [hp] at h
    have h1 : padRecord st text o env' = st' := congrArg Prod.fst h
    have h3 : o = out := Except.ok.inj (congrArg Prod.snd h)
    clear h hp
    subst h3
    rw [← h1]
    constructor
    · intro ht
      simp [padRecord, ht]
    · intro ht
      simp [padRecord, ht]

/-- C4 counterexample: the claimed "the variable environment is exactly as
it was before the line (no assignment target is bound)" fails on the code
in two ways.  A multi-statement line whose second statement raises keeps the
first statement's binding (`a=5;1/0`); and a single chained-assignment
statement `a = b[0] = 5` — one `ast.Assign` with targets `[Name, Subscript]`
after the preprocessor turns it into `a =Unit('1 b')[0] = 5` — binds `a`
first and then raises `AttributeError` on the subscript target's missing
`.id`, leaving `a = 5` bound.  Neither line records a history entry. -/
theorem error_isolation_counterexample :
    (padAppend defaultCfg padInit "a=5;1/0").2 = .error .zeroDivision ∧
    envGet (padAppend defaultCfg padInit "a=5;1/0").1.vars "a" = some (.num ⟨5, 1⟩) ∧
    lineStmts padInit.vars "a = b[0] = 5" =
      .ok [.assignS [.tName "a", .tOther] (.lit (.numL ⟨5, 1⟩))] ∧
    (padAppend defaultCfg padInit "a = b[0] = 5").2 = .error .attrError ∧
    envGet (padAppend defaultCfg padInit "a = b[0] = 5").1.vars "a" = some (.num ⟨5, 1⟩) ∧
    envGet padInit.vars "a" = none ∧
    (padAppend defaultCfg padInit "a = b[0] = 5").1.input = [] ∧
    (padAppend defaultCfg padInit "a = b[0] = 5").1.output = [] :=
  ⟨rfl, rfl, rfl, rfl, rfl, rfl, rfl, rfl⟩

/-- C4 (amended): a failing line is reported for that line only — no
history entry is recorded and the implicit `ans` write is skipped, so the
notebook's environment after the line is exactly what evaluation left; the
session continues, later lines evaluating against that environment.  That
environment is not necessarily the pre-line one: mutations made before the
error persist — an assignment computes its value before binding any
target (a failing right-hand side leaves the environment untouched), then
binds its name targets left to right, and the first `.id`-less target
raises `AttributeError` keeping the bindings already made. -/
theorem error_isolation :
    (∀ cfg st text st' e, padAppend cfg st text = (st', .error e) →
      st'.input = st.input ∧ st'.output = st.output) ∧
    (∀ cfg st text st' e, padAppend cfg st text = (st', .error e) →
      st'.vars = (evalLine cfg st.vars text).2) ∧
    (∀ cfg env tgts v e, evalExpr cfg env v = .error e →
      evalStmt cfg env (.assignS tgts v) = (.error e, env)) ∧
    (∀ (vv : Value) (ns : List String) (rest : List Target) (env : VarEnv),
      bindTargets vv (ns.map Target.tName ++ Target.tOther :: rest) env =
        (some .attrError, ns.foldl (fun en n => envSet en n vv) env)) ∧
    (padRun defaultCfg [.app "a=5;1/0", .app "a+1"]).2 =
      [.error .zeroDivision, .ok (.num ⟨6, 1⟩)] := by
  refine ⟨padAppend_error_hist, ?_, ?_, ?_, rfl⟩
  · intro cfg st text st' e h
    rcases padAppend_cases cfg st text with ⟨e0, env', hev, hp⟩ | ⟨out, env', hev, hp⟩
    · rw [hp] at h
      obtain ⟨h1, -⟩ := Prod.mk.inj h
      rw [← h1, hev]
    · rw [hp] at h
      exact absurd (congrArg Prod.snd h) (by simp)
  · intro cfg env tgts v e hv
    simp [evalStmt, hv]
  · intro vv ns
    induction ns with
    | nil => intro rest env; rfl
    | cons n ns ih => intro rest env; exact ih rest (envSet env n vv)

/-- C4 witness: the no-`ans`-write clause applied to the failing line `1/0`
on the fresh notebook (the environment stays empty), and the target-binding
clause applied to the `[Name, Subscript]` target list of `a = b[0] = 5`
(the name is bound, then `AttributeError`). -/
theorem error_isolation_witness :
    (padAppend defaultCfg padInit "1/0").1.vars = [] ∧
    bindTargets (.num ⟨5, 1⟩) [.tName "a", .tOther] [] =
      (some .attrError, [("a", Value.num ⟨5, 1⟩)]) :=
  ⟨(error_isolation.2.1 defaultCfg padInit "1/0" (padAppend defaultCfg padInit "1/0").1
      .zeroDivision rfl).trans rfl,
   error_isolation.2.2.2.1 (.num ⟨5, 1⟩) ["a"] [] []⟩

theorem padStep_len (cfg : Cfg) (acc : Pad × List (Except Err Value)) (op : PadOp)
    (h : acc.1.input.length = acc.1.output.length) :
    (padStep cfg acc op).1.input.length = (padStep cfg acc op).1.output.length := by
  cases op with
  | clr => simp [padStep, padClear]
  | app line =>
    rcases padAppend_cases cfg acc.1 line with ⟨e, env', _, hp⟩ | ⟨out, env', _, hp⟩
    · simp only [padStep, hp]
      exact h
    · simp only [padStep, hp]
      by_cases ht : truthy out <;> simp [padRecord, ht, h]

/-- C5 counterexample: `1-1` evaluates to the non-empty result `0`, yet the
`if out:` truthiness gate skips recording it, refuting the claimed
"recorded iff non-empty". -/
theorem history_counterexample :
    (padAppend defaultCfg padInit "1-1").2 = .ok (.num ⟨0, 1⟩) ∧
    Value.num ⟨0, 1⟩ ≠ Value.listV [] ∧
    (padAppend defaultCfg padInit "1-1").1.input = [] ∧
    (padAppend defaultCfg padInit "1-1").1.output = [] :=
  ⟨rfl, fun h => Value.noConfusion h, rfl, rfl⟩

/-- C5 (amended): over every script of appends and clears the invariant
`len(input) = len(output)` holds, and a (line, result) pair is recorded iff
the line's result is truthy (non-Empty and non-zero): truthy results append
to both histories, falsy results (Empty or zero-valued) and errors append
to neither. -/
theorem history_invariant :
    (∀ cfg ops, (padRun cfg ops).1.input.length = (padRun cfg ops).1.output.length) ∧
    (∀ cfg st text st' out, padAppend cfg st text = (st', .ok out) → truthy out = true →
      st'.input = st.input ++ [text] ∧ st'.output = st.output ++ [out]) ∧
    (∀ cfg st text st' out, padAppend cfg st text = (st', .ok out) → truthy out = false →
      st'.input = st.input ∧ st'.output = st.output) ∧
    (∀ cfg st text st' e, padAppend cfg st text = (st', .error e) →
      st'.input = st.input ∧ st'.output = st.output) := by
  refine ⟨?_, ?_, ?_, fun cfg st text st' e h => padAppend_error_hist cfg st text st' e h⟩
  · intro cfg ops
    suffices hgen : ∀ (l : List PadOp) (acc : Pad × List (Except Err Value)),
        acc.1.input.length = acc.1.output.length →
        (l.foldl (padStep cfg) acc).1.input.length =
          (l.foldl (padStep cfg) acc).1.output.length by
      exact hgen ops (padInit, []) rfl
    intro l
    induction l with
    | nil => exact fun acc h => h
    | cons op rest ih => exact fun acc h => ih _ (padStep_len cfg acc op h)
  · intro cfg st text st' out h ht
    exact (padAppend_ok_hist cfg st text st' out h).1 ht
  · intro cfg st text st' out h ht
    exact (padAppend_ok_hist cfg st text st' out h).2 ht

set_option maxHeartbeats 1000000 in
/-- C5 witness: the amended statement applied at concrete lines — `2+3`
(truthy, recorded) and `1-1` (zero, skipped). -/
theorem history_invariant_witness :
    (padAppend defaultCfg padInit "2+3").1.input = ["2+3"] ∧
    (padAppend defaultCfg padInit "2+3").1.output = [.num ⟨5, 1⟩] ∧
    (padAppend defaultCfg padInit "1-1").1.input = [] ∧
    (padAppend defaultCfg padInit "1-1").1.output = [] := by
  obtain ⟨h1, h2⟩ :=
    history_invariant.2.1 defaultCfg padInit "2+3" (padAppend defaultCfg padInit "2+3").1
      (.num ⟨5, 1⟩) rfl rfl
  obtain ⟨h3, h4⟩ :=
    history_invariant.2.2.1 defaultCfg padInit "1-1" (padAppend defaultCfg padInit "1-1").1
      (.num ⟨0, 1⟩) rfl rfl
  exact ⟨h1, h2, h3, h4⟩

/-! ## Termination of the rewrite loops (claim C9)

Each repeat-until-no-match loop strictly decreases a measure — the number of
`!` (factorial), `$` (money), or unit-alphabet characters (unit literals) —
because the replaced span contains the measured character and the
replacement text does not.  Hence the measure-plus-one fuel the pipeline
passes always reaches the no-match fixpoint. -/

theorem factMatchAt_sound {cs ds ws post : List Char}
    (h : factMatchAt cs = some (ds, ws, post)) : cs = ds ++ ws ++ '!' :: post := by
  unfold factMatchAt at h
  simp only [] at h
  split at h
  · exact absurd h (by simp)
  · split at h
    next heq =>
      obtain ⟨h1, h2, h3⟩ := by simpa using h
      subst h1
      subst h2
      subst h3
      conv_lhs => rw [← List.takeWhile_append_dropWhile (p := (·.isDigit)) (l := cs)]
      rw [List.append_assoc]
      congr 1
      conv_lhs =>
        rw [← List.takeWhile_append_dropWhile (p := (isWsC ·))
          (l := cs.dropWhile (·.isDigit))]
      rw [heq]
    next => exact absurd h (by simp)

theorem factSplit_sound :
    ∀ {t pre ds ws post : List Char}, factSplit t = some (pre, ds, ws, post) →
      t = pre ++ ds ++ ws ++ '!' :: post := by
  intro t
  induction t with
  | nil => intro pre ds ws post h; exact absurd h (by simp [factSplit])
  | cons c cs ih =>
    intro pre ds ws post h
    unfold factSplit at h
    cases hm : factMatchAt (c :: cs) with
    | some m =>
      rw [hm] at h
      obtain ⟨d0, w0, p0⟩ := m
      obtain ⟨h1, h2, h3, h4⟩ := by simpa using h
      subst h1
      subst h2
      subst h3
      subst h4
      simpa using factMatchAt_sound hm
    | none =>
      rw [hm] at h
      cases hs : factSplit cs with
      | none => rw [hs] at h; exact absurd h (by simp)
      | some m2 =>
        rw [hs] at h
        obtain ⟨p0, d0, w0, q0⟩ := m2
        obtain ⟨h1, h2, h3, h4⟩ := by simpa using h
        subst h1
        subst h2
        subst h3
        subst h4
        have := ih hs
        simp [this]

theorem factApply_count_lt {t pre ds ws post : List Char}
    (hsound : t = pre ++ ds ++ ws ++ '!' :: post) :
    (factApply pre ds post).count '!' < t.count '!' := by
  subst hsound
  simp only [factApply, List.count_append, List.count_cons]
  have h1 : (['f', 'a', 'c', 't', 'o', 'r', 'i', 'a', 'l', '('] : List Char).count '!' = 0 := by
    decide
  have h2 : (')' : Char) ≠ '!' := by decide
  simp [List.count_append, List.count_cons, h1]
  omega

theorem factLoop_fix : ∀ (fuel : Nat) (t : List Char), t.count '!' < fuel →
    factSplit (factLoop fuel t) = none := by
  intro fuel
  induction fuel with
  | zero => intro t h; omega
  | succ f ih =>
    intro t h
    unfold factLoop
    cases hs : factSplit t with
    | none => exact hs
    | some m =>
      obtain ⟨pre, ds, ws, post⟩ := m
      apply ih
      have hlt := factApply_count_lt (factSplit_sound hs)
      omega

theorem moneyBack_sound (run rest : List Char) :
    ∀ k kept dropped, moneyBack run rest k = some (kept, dropped) →
      kept ++ dropped = run ++ rest := by
  intro k
  induction k with
  | zero => intro kept dropped h; exact absurd h (by simp [moneyBack])
  | succ k ih =>
    intro kept dropped h
    unfold moneyBack at h
    simp only [] at h
    split at h
    · obtain ⟨h1, h2⟩ := by simpa using h
      subst h1
      subst h2
      rw [← List.append_assoc, List.take_append_drop]
    · exact ih kept dropped h

theorem moneyMatchAt_sound {cs kept dropped : List Char}
    (h : moneyMatchAt cs = some (kept, dropped)) : cs = '$' :: (kept ++ dropped) := by
  unfold moneyMatchAt at h
  split at h
  next r1 =>
    simp only [] at h
    split at h
    · exact absurd h (by simp)
    · have hs := moneyBack_sound _ _ _ _ _ h
      rw [List.takeWhile_append_dropWhile] at hs
      rw [hs]
  next => exact absurd h (by simp)

theorem moneySplit_sound :
    ∀ {t pre grp post : List Char}, moneySplit t = some (pre, grp, post) →
      t = pre ++ '$' :: (grp ++ post) := by
  intro t
  induction t with
  | nil => intro pre grp post h; exact absurd h (by simp [moneySplit])
  | cons c cs ih =>
    intro pre grp post h
    unfold moneySplit at h
    cases hm : moneyMatchAt (c :: cs) with
    | some m =>
      rw [hm] at h
      obtain ⟨g0, p0⟩ := m
      obtain ⟨h1, h2, h3⟩ := by simpa using h
      subst h1
      subst h2
      subst h3
      simpa using moneyMatchAt_sound hm
    | none =>
      rw [hm] at h
      cases hs : moneySplit cs with
      | none => rw [hs] at h; exact absurd h (by simp)
      | some m2 =>
        rw [hs] at h
        obtain ⟨p0, g0, q0⟩ := m2
        obtain ⟨h1, h2, h3⟩ := by simpa using h
        subst h1
        subst h2
        subst h3
        have := ih hs
        simp [this]

theorem moneyLoop_fix : ∀ (fuel : Nat) (t : List Char), t.count '$' < fuel →
    moneySplit (moneyLoop fuel t) = none := by
  intro fuel
  induction fuel with
  | zero => intro t h; omega
  | succ f ih =>
    intro t h
    unfold moneyLoop
    cases hs : moneySplit t with
    | none => exact hs
    | some m =>
      obtain ⟨pre, grp, post⟩ := m
      apply ih
      have hsound := moneySplit_sound hs
      subst hsound
      simp [List.count_append, List.count_cons] at h ⊢
      omega

theorem moneyToMatchAt_sound {cs ws post : List Char}
    (h : moneyToMatchAt cs = some (ws, post)) :
    cs = ' ' :: 't' :: 'o' :: (ws ++ '$' :: post) := by
  unfold moneyToMatchAt at h
  split at h
  next r1 =>
    simp only [] at h
    split at h
    · exact absurd h (by simp)
    · split at h
      next p0 heq2 =>
        obtain ⟨h1, h2⟩ := by simpa using h
        subst h1
        subst h2
        have hr : r1.takeWhile (isWsC ·) ++ r1.dropWhile (isWsC ·) = r1 :=
          List.takeWhile_append_dropWhile ..
        rw [heq2] at hr
        rw [hr]
      next => exact absurd h (by simp)
  next => exact absurd h (by simp)

theorem moneyToSplit_sound :
    ∀ {t pre ws post : List Char}, moneyToSplit t = some (pre, ws, post) →
      t = pre ++ ' ' :: 't' :: 'o' :: (ws ++ '$' :: post) := by
  intro t
  induction t with
  | nil => intro pre ws post h; exact absurd h (by simp [moneyToSplit])
  | cons c cs ih =>
    intro pre ws post h
    unfold moneyToSplit at h
    cases hm : moneyToMatchAt (c :: cs) with
    | some m =>
      rw [hm] at h
      obtain ⟨w0, q0⟩ := m
      obtain ⟨h1, h2, h3⟩ := by simpa using h
      subst h1
      subst h2
      subst h3
      simpa using moneyToMatchAt_sound hm
    | none =>
      rw [hm] at h
      cases hs : moneyToSplit cs with
      | none => rw [hs] at h; exact absurd h (by simp)
      | some m2 =>
        rw [hs] at h
        obtain ⟨p0, w0, q0⟩ := m2
        obtain ⟨h1, h2, h3⟩ := by simpa using h
        subst h1
        subst h2
        subst h3
        have := ih hs
        simp [this]

theorem moneyToLoop_fix : ∀ (fuel : Nat) (t : List Char), t.count '$' < fuel →
    moneyToSplit (moneyToLoop fuel t) = none := by
  intro fuel
  induction fuel with
  | zero => intro t h; omega
  | succ f ih =>
    intro t h
    unfold moneyToLoop
    cases hs : moneyToSplit t with
    | none => exact hs
    | some m =>
      obtain ⟨pre, ws, post⟩ := m
      apply ih
      have hsound := moneyToSplit_sound hs
      subst hsound
      simp [List.count_append, List.count_cons] at h ⊢
      omega

/-- The greedy exponent repetitions are a prefix of their input. -/
theorem expRepsGreedy_prefix : ∀ (fuel : Nat) (cs : List Char),
    ∃ r, expRepsGreedy fuel cs ++ r = cs := by
  intro fuel
  induction fuel with
  | zero => exact fun cs => ⟨cs, rfl⟩
  | succ fuel ih =>
    intro cs
    unfold expRepsGreedy
    split
    · next r =>
      show ∃ r1, (if (r.takeWhile (·.isDigit)).isEmpty then []
          else ('^' :: r.takeWhile (·.isDigit)) ++
            expRepsGreedy fuel (r.dropWhile (·.isDigit))) ++ r1 = '^' :: r
      split
      · exact ⟨'^' :: r, rfl⟩
      · obtain ⟨r2, hr2⟩ := ih (r.dropWhile (·.isDigit))
        refine ⟨r2, ?_⟩
        simp only [List.cons_append, List.append_assoc]
        rw [hr2, List.takeWhile_append_dropWhile]
    · next r =>
      show ∃ r1, (if (r.takeWhile (·.isDigit)).isEmpty then []
          else ('*' :: '*' :: r.takeWhile (·.isDigit)) ++
            expRepsGreedy fuel (r.dropWhile (·.isDigit))) ++ r1 = '*' :: '*' :: r
      split
      · exact ⟨'*' :: '*' :: r, rfl⟩
      · obtain ⟨r2, hr2⟩ := ih (r.dropWhile (·.isDigit))
        refine ⟨r2, ?_⟩
        simp only [List.cons_append, List.append_assoc]
        rw [hr2, List.takeWhile_append_dropWhile]
    · next c t h1 h2 =>
      show ∃ r1, (if c.isDigit then
          (c :: t).takeWhile (·.isDigit) ++
            expRepsGreedy fuel ((c :: t).dropWhile (·.isDigit))
        else []) ++ r1 = c :: t
      split
      · obtain ⟨r2, hr2⟩ := ih ((c :: t).dropWhile (·.isDigit))
        refine ⟨r2, ?_⟩
        rw [List.append_assoc, hr2, List.takeWhile_append_dropWhile]
      · exact ⟨c :: t, rfl⟩
    · exact ⟨[], rfl⟩

theorem unitLetterCount_append (a b : List Char) :
    unitLetterCount (a ++ b) = unitLetterCount a + unitLetterCount b := by
  unfold unitLetterCount
  exact List.countP_append _ _ _

/-- One backtracking attempt of the unit block consumes a decomposable span
starting with the kept letters. -/
theorem unitBlockTry_sound {kept aft block rest : List Char}
    (h : unitBlockTry kept aft = some (block, rest)) :
    block ++ rest = kept ++ aft ∧ kept <+: block := by
  unfold unitBlockTry at h
  split at h
  · exact Option.noConfusion h
  · simp only [] at h
    split at h
    · obtain ⟨h1, h2⟩ := Prod.mk.inj (Option.some.inj h)
      obtain ⟨r2, hr2⟩ := expRepsGreedy_prefix aft.length aft
      have hd : aft.drop (expRepsGreedy aft.length aft).length = r2 := by
        have hc := congrArg
          (fun l => List.drop (expRepsGreedy aft.length aft).length l) hr2
        simpa [List.drop_left] using hc.symm
      constructor
      · rw [← h1, ← h2, hd, List.append_assoc, hr2]
      · rw [← h1]; exact List.prefix_append kept _
    · split at h
      · exact Option.noConfusion h
      · split at h
        · obtain ⟨h1, h2⟩ := Prod.mk.inj (Option.some.inj h)
          subst h1; subst h2
          exact ⟨rfl, List.prefix_refl kept⟩
        · exact Option.noConfusion h

/-- The backtracking over the letter-count keeps the span decomposable and
containing at least one unit letter. -/
theorem unitBlockK_sound {letters aft0 block rest : List Char}
    (hne : letters ≠ [])
    (hall : ∀ c ∈ letters, isUnitLetterC c = true) :
    ∀ k, unitBlockK letters aft0 k = some (block, rest) →
      block ++ rest = letters ++ aft0 ∧ 0 < unitLetterCount block := by
  intro k
  induction k with
  | zero => intro h; exact Option.noConfusion h
  | succ k ih =>
    intro h
    unfold unitBlockK at h
    split at h
    · next r heq =>
      have hr := Option.some.inj h
      subst hr
      obtain ⟨hsplice, hpre⟩ := unitBlockTry_sound heq
      constructor
      · rw [hsplice, ← List.append_assoc, List.take_append_drop]
      · obtain ⟨x, hx⟩ := hpre
        rw [← hx, unitLetterCount_append]
        have hk : 0 < unitLetterCount (letters.take (k + 1)) := by
          cases letters with
          | nil => exact absurd rfl hne
          | cons c ls =>
            have hc : isUnitLetterC c = true := hall c (List.mem_cons_self c ls)
            unfold unitLetterCount
            simp [List.take_succ_cons, List.countP_cons, hc]
        omega
    · exact ih h

/-- The full unit block at a position is a decomposable span with at least
one unit letter. -/
theorem unitBlockAt_sound {cs block rest : List Char}
    (h : unitBlockAt cs = some (block, rest)) :
    block ++ rest = cs ∧ 0 < unitLetterCount block := by
  unfold unitBlockAt at h
  simp only [] at h
  split at h
  · exact Option.noConfusion h
  · next hne =>
    have hne' : cs.takeWhile (isUnitLetterC ·) ≠ [] := by
      simpa [List.isEmpty_iff] using hne
    have hall : ∀ c ∈ cs.takeWhile (isUnitLetterC ·), isUnitLetterC c = true :=
      fun c hc => List.mem_takeWhile_imp hc
    obtain ⟨h1, h2⟩ := unitBlockK_sound hne' hall _ h
    refine ⟨?_, h2⟩
    rw [h1, List.takeWhile_append_dropWhile]

/-- Whatever number-prefix candidate succeeds, the whole consumed span is a
decomposition of the position's suffix and contains a unit letter. -/
theorem unitTryCands_sound {cs : List Char} :
    ∀ (cands : List (List Char)) {numOpt : Option (List Char)}
      {block span rest : List Char},
      unitTryCands cs cands = some (numOpt, block, span, rest) →
      span ++ rest = cs ∧ 0 < unitLetterCount span := by
  intro cands
  induction cands with
  | nil =>
    intro numOpt block span rest h
    unfold unitTryCands at h
    simp only [] at h
    split at h
    · next b r heq =>
      obtain ⟨h1, h2⟩ := unitBlockAt_sound heq
      obtain ⟨hn, hrest⟩ := Prod.mk.inj (Option.some.inj h)
      obtain ⟨hb, hrest2⟩ := Prod.mk.inj hrest
      obtain ⟨hspan, hr⟩ := Prod.mk.inj hrest2
      constructor
      · rw [← hspan, ← hr, List.append_assoc, h1, List.takeWhile_append_dropWhile]
      · rw [← hspan, unitLetterCount_append]
        omega
    · exact Option.noConfusion h
  | cons nc more ih =>
    intro numOpt block span rest h
    unfold unitTryCands at h
    split at h
    · next hpre =>
      simp only [] at h
      split at h
      · next b r heq =>
        obtain ⟨h1, h2⟩ := unitBlockAt_sound heq
        obtain ⟨hn, hrest⟩ := Prod.mk.inj (Option.some.inj h)
        obtain ⟨hb, hrest2⟩ := Prod.mk.inj hrest
        obtain ⟨hspan, hr⟩ := Prod.mk.inj hrest2
        have hcs : nc ++ cs.drop nc.length = cs := by
          obtain ⟨r0, hr0⟩ := List.isPrefixOf_iff_prefix.mp hpre
          rw [← hr0, List.drop_left]
        constructor
        · rw [← hspan, ← hr]
          simp only [List.append_assoc]
          rw [h1, List.takeWhile_append_dropWhile, hcs]
        · rw [← hspan, List.append_assoc, unitLetterCount_append,
            unitLetterCount_append]
          omega
      · exact ih h
    · exact ih h

/-- A `unit_re` match at a position consumes a decomposable span with at
least one unit letter. -/
theorem unitMatchAt_sound {prevC : Option Char} {pre6bad : Bool}
    {cs : List Char} {numOpt : Option (List Char)} {block span rest : List Char}
    (h : unitMatchAt prevC pre6bad cs = some (numOpt, block, span, rest)) :
    span ++ rest = cs ∧ 0 < unitLetterCount span := by
  unfold unitMatchAt at h
  simp only [] at h
  split at h
  · exact Option.noConfusion h
  · exact unitTryCands_sound _ h

/-- The leftmost search decomposes the text around a span with at least one
unit letter. -/
theorem unitSearchAux_sound :
    ∀ (t preRev : List Char) {pre : List Char} {numOpt : Option (List Char)}
      {block rest : List Char},
      unitSearchAux preRev t = some (pre, numOpt, block, rest) →
      ∃ span, pre ++ (span ++ rest) = preRev.reverse ++ t ∧
        0 < unitLetterCount span := by
  intro t
  induction t with
  | nil => intro preRev pre numOpt block rest h; exact Option.noConfusion h
  | cons c cs ih =>
    intro preRev pre numOpt block rest h
    unfold unitSearchAux at h
    simp only [] at h
    split at h
    · next numOpt' block' span' rest' heq =>
      obtain ⟨hspan, hcount⟩ := unitMatchAt_sound heq
      obtain ⟨hpre, hrest⟩ := Prod.mk.inj (Option.some.inj h)
      obtain ⟨hn, hrest2⟩ := Prod.mk.inj hrest
      obtain ⟨hb, hr⟩ := Prod.mk.inj hrest2
      refine ⟨span', ?_, hcount⟩
      rw [← hpre, ← hr, hspan]
    · obtain ⟨span, hs, hc⟩ := ih (c :: preRev) h
      refine ⟨span, ?_, hc⟩
      rw [hs, List.reverse_cons]
      simp

theorem myDigitChar_not_unit (d : Nat) : isUnitLetterC (myDigitChar d) = false := by
  unfold myDigitChar
  split <;> decide

theorem natDigitsGo_count (fuel : Nat) : ∀ (n : Nat) (acc : List Char),
    unitLetterCount (natDigitsGo fuel n acc) = unitLetterCount acc := by
  induction fuel with
  | zero => intro n acc; rfl
  | succ fuel ih =>
    intro n acc
    unfold natDigitsGo
    split
    · rfl
    · rw [ih]
      unfold unitLetterCount
      simp [List.countP_cons, myDigitChar_not_unit]

theorem natDigits_count (n : Nat) : unitLetterCount (natDigits n) = 0 := by
  unfold natDigits
  split
  · decide
  · rw [natDigitsGo_count]; rfl

/-- The indexed placeholder `@@k@@` contains no unit letter, so it can never
re-match. -/
theorem placeholder_count (idx : Nat) :
    unitLetterCount (('@' :: '@' :: natDigits idx) ++ ['@', '@']) = 0 := by
  rw [unitLetterCount_append]
  have hAt : isUnitLetterC '@' = false := by decide
  have h := natDigits_count idx
  unfold unitLetterCount at h ⊢
  simp [List.countP_cons, hAt, h]

/-- The postcondition of the unit-literal loop: unless a line-aborting error
occurred, the final text has no remaining `unit_re` match. -/
def unitLoopDone : Except Err (List Char × List (List Char × List Char)) → Prop
  | .error _ => True
  | .ok (t, _) => unitSearch t = none

theorem unitLoop_fix : ∀ (fuel idx : Nat) (t : List Char)
    (acc : List (List Char × List Char)),
    unitLetterCount t < fuel → unitLoopDone (unitLoop fuel idx t acc) := by
  intro fuel
  induction fuel with
  | zero => intro idx t acc h; omega
  | succ f ih =>
    intro idx t acc h
    unfold unitLoop
    cases hs : unitSearch t with
    | none => exact hs
    | some m =>
      obtain ⟨pre, numOpt, block, rest⟩ := m
      show unitLoopDone (Except.bind (unitReplacement numOpt block) fun rep =>
        unitLoop f (idx + 1)
          (pre ++ (('@' :: '@' :: natDigits idx) ++ ['@', '@']) ++ rest)
          (acc ++ [(('@' :: '@' :: natDigits idx) ++ ['@', '@'], rep)]))
      cases hr : unitReplacement numOpt block with
      | error e => exact trivial
      | ok rep =>
        obtain ⟨span, hsp, hcount⟩ := unitSearchAux_sound t [] hs
        have hsp' : pre ++ (span ++ rest) = t := by simpa using hsp
        have ht : unitLetterCount pre + (unitLetterCount span + unitLetterCount rest)
            = unitLetterCount t := by
          rw [← hsp', unitLetterCount_append, unitLetterCount_append]
        have hlt : unitLetterCount
            (pre ++ (('@' :: '@' :: natDigits idx) ++ ['@', '@']) ++ rest) < f := by
          have h2 : unitLetterCount
              (pre ++ (('@' :: '@' :: natDigits idx) ++ ['@', '@']) ++ rest)
              = unitLetterCount pre + unitLetterCount rest := by
            rw [unitLetterCount_append, unitLetterCount_append, placeholder_count]
            omega
          omega
        exact ih (idx + 1) _ _ hlt

/-- C9: every repeat-until-no-match rewrite loop of the preprocessor
terminates.  Each loop is run with its termination measure plus one as fuel,
exactly as the assembled pipeline does, and reaches a state its pattern no
longer matches: the factorial loop and both money loops reach a text their
regex no longer matches, and the unit-literal loop either aborts the line
with an error or reaches a text with no remaining `unit_re` match — each
replacement strictly consumes the matched span's trigger characters
(`!`, `$`, unit letters) and inserts none. -/
theorem rewrite_loops_terminate :
    (∀ t : List Char, factSplit (factLoop (t.count '!' + 1) t) = none) ∧
    (∀ t : List Char, moneySplit (moneyLoop (t.count '$' + 1) t) = none) ∧
    (∀ t : List Char, moneyToSplit (moneyToLoop (t.count '$' + 1) t) = none) ∧
    (∀ (t : List Char) (idx : Nat) (acc : List (List Char × List Char)),
      unitLoopDone (unitLoop (unitLetterCount t + 1) idx t acc)) := by
  refine ⟨fun t => factLoop_fix _ t (by omega),
          fun t => moneyLoop_fix _ t (by omega),
          fun t => moneyToLoop_fix _ t (by omega),
          fun t idx acc => unitLoop_fix _ idx t acc (by omega)⟩

end BeeCalc
